import Mathlib

/-
  Verification development for jstok (single-header JSON tokenizer, jstok.h).

  The embedding models the default build: JSTOK_PARENT_LINKS off,
  JSTOK_MAX_DEPTH = 64, and JSTOK_STRICT as an explicit Bool parameter
  (the C code compiles it in or out; both variants are covered).

  Input buffers are lists of characters; `json_len` selects the readable
  prefix, exactly as the C functions never read at or beyond `json_len`.
  Token arrays are lists updated in place with `List.set` (out-of-range
  writes, which in C would be out-of-bounds, are no-ops and are never
  exercised by the theorems below).  Inside one `jstok_parse` call the C
  code treats `error_pos`/`error_code` as write-only (reset on entry, set
  only on return paths), so the scanning core threads a `JCore` record of
  the remaining state and the error fields are assembled at the
  `jstok_parse` boundary.
-/

def JSTOK_MAX_DEPTH : Nat := 64
def JSTOK_ERROR_NOMEM : Int := -1
def JSTOK_ERROR_INVAL : Int := -2
def JSTOK_ERROR_PART : Int := -3
def JSTOK_ERROR_DEPTH : Int := -4

inductive JType where
  | UNDEFINED
  | OBJECT
  | ARRAY
  | STRING
  | PRIMITIVE
deriving DecidableEq

inductive JSt where
  | OBJ_KEY_OR_END
  | OBJ_KEY
  | OBJ_COLON
  | OBJ_VALUE
  | OBJ_COMMA_OR_END
  | ARR_VALUE_OR_END
  | ARR_VALUE
  | ARR_COMMA_OR_END
deriving DecidableEq

/-- jstoktok_t: token descriptor; `stop` is the exclusive end offset (the C
field `end`, renamed because `end` is a Lean keyword). -/
structure JTok where
  type : JType
  start : Int
  stop : Int
  size : Int
deriving DecidableEq

/-- jstok_frame_t: one frame of the container stack. -/
structure JFrame where
  type : JType
  st : JSt
  tok : Int
deriving DecidableEq

/-- jstok_parser: the full parser state visible at the API boundary. -/
structure JParser where
  pos : Nat
  toknext : Nat
  stack : List JFrame
  root_done : Bool
  error_pos : Int
  error_code : Int
deriving DecidableEq

def JParser.depth (p : JParser) : Nat := p.stack.length

/-- The scanning state threaded through one `jstok_parse` call (everything
except the write-only error fields).  The C stack array cells at indices
`≥ depth` are dead storage; the list holds the live frames, top first. -/
structure JCore where
  pos : Nat
  toknext : Nat
  stack : List JFrame
  root_done : Bool
deriving DecidableEq

def JCore.depth (c : JCore) : Nat := c.stack.length

def JParser.core (p : JParser) : JCore := ⟨p.pos, p.toknext, p.stack, p.root_done⟩

/-- jstok_init -/
def jstok_init : JParser := ⟨0, 0, [], false, -1, 0⟩

/-- An error return: code plus the position passed to jstok_set_error. -/
structure PErr where
  code : Int
  epos : Nat
deriving DecidableEq

/-- Result of a fallible operation that may leave the core/tokens mutated. -/
inductive Res (α : Type) where
  | ok (a : α)
  | err (e : PErr) (c : JCore) (ts : Option (List JTok))

/-- Read byte `i` of the buffer; all call sites are guarded by `i < json_len`,
so the default is never observable when `json_len ≤ json.length`. -/
def getc (json : List Char) (i : Nat) : Char := json.getD i (Char.ofNat 0)

def jstok_is_space (c : Char) : Bool := c = ' ' || c = '\t' || c = '\n' || c = '\r'

def jstok_is_digit (c : Char) : Bool := '0' ≤ c && c ≤ '9'

def jstok_is_hex (c : Char) : Bool :=
  jstok_is_digit c || ('a' ≤ c && c ≤ 'f') || ('A' ≤ c && c ≤ 'F')

def jstok_is_delim (c : Char) : Bool := c = ',' || c = ']' || c = '}' || jstok_is_space c

def defJTok : JTok := ⟨.UNDEFINED, 0, 0, 0⟩

/-- jstok_push -/
def jstok_push (c : JCore) (ty : JType) (st : JSt) (tok : Int) : Except PErr JCore :=
  if JSTOK_MAX_DEPTH ≤ c.stack.length then .error ⟨JSTOK_ERROR_DEPTH, c.pos⟩
  else .ok { c with stack := ⟨ty, st, tok⟩ :: c.stack }

/-- jstok_pop -/
def jstok_pop (c : JCore) : JCore := { c with stack := c.stack.tail }

/-- jstok_new_token: allocate the next token slot, or only count. -/
def jstok_new_token (c : JCore) (ts : Option (List JTok)) (maxT : Int) (ty : JType)
    (start stop : Int) : Except PErr (Int × JCore × Option (List JTok)) :=
  match ts with
  | some l =>
    if maxT ≤ (c.toknext : Int) then .error ⟨JSTOK_ERROR_NOMEM, c.pos⟩
    else .ok ((c.toknext : Int), { c with toknext := c.toknext + 1 },
              some (l.set c.toknext ⟨ty, start, stop, 0⟩))
  | none => .ok ((c.toknext : Int), { c with toknext := c.toknext + 1 }, none)

/-- jstok_inc_container_size -/
def jstok_inc_container_size (c : JCore) (ts : Option (List JTok)) : Option (List JTok) :=
  match c.stack.head? with
  | none => ts
  | some fr =>
    match ts with
    | none => none
    | some l =>
      if fr.tok < 0 then some l
      else
        let t := l.getD fr.tok.toNat defJTok
        some (l.set fr.tok.toNat { t with size := t.size + 1 })

/-- jstok_accept_value -/
def jstok_accept_value (strict : Bool) (c : JCore) (ts : Option (List JTok)) :
    Except PErr (JCore × Option (List JTok)) :=
  match c.stack with
  | [] =>
    if strict && c.root_done then .error ⟨JSTOK_ERROR_INVAL, c.pos⟩
    else .ok ({ c with root_done := true }, ts)
  | fr :: rest =>
    if fr.type = .ARRAY then
      if fr.st = .ARR_VALUE_OR_END ∨ fr.st = .ARR_VALUE then
        .ok ({ c with stack := { fr with st := .ARR_COMMA_OR_END } :: rest },
             jstok_inc_container_size c ts)
      else .error ⟨JSTOK_ERROR_INVAL, c.pos⟩
    else if fr.type = .OBJECT then
      if fr.st = .OBJ_VALUE then
        .ok ({ c with stack := { fr with st := .OBJ_COMMA_OR_END } :: rest },
             jstok_inc_container_size c ts)
      else .error ⟨JSTOK_ERROR_INVAL, c.pos⟩
    else .error ⟨JSTOK_ERROR_INVAL, c.pos⟩

/-- jstok_accept_key -/
def jstok_accept_key (c : JCore) : Except PErr JCore :=
  match c.stack with
  | [] => .error ⟨JSTOK_ERROR_INVAL, c.pos⟩
  | fr :: rest =>
    if fr.type = .OBJECT ∧ (fr.st = .OBJ_KEY_OR_END ∨ fr.st = .OBJ_KEY) then
      .ok { c with stack := { fr with st := .OBJ_COLON } :: rest }
    else .error ⟨JSTOK_ERROR_INVAL, c.pos⟩

inductive StrScanRes where
  | closedAt (q : Nat)
  | badAt (j : Nat)
  | needMore
deriving DecidableEq

/-- The scan loop of jstok_parse_string_token.  The second argument is the
remaining byte count `json_len - pos`, so running out of it is exactly the
end-of-buffer condition of the C loop. -/
def jstok_str_scan (json : List Char) : Nat → Nat → StrScanRes
  | _, 0 => .needMore
  | pos, rem + 1 =>
    let c := getc json pos
    if c.toNat < 0x20 then .badAt pos
    else if c = '"' then .closedAt pos
    else if c = '\\' then
      match rem with
      | 0 => .needMore
      | rem1 + 1 =>
        let e := getc json (pos + 1)
        if e = '"' || e = '\\' || e = '/' || e = 'b' || e = 'f' ||
           e = 'n' || e = 'r' || e = 't' then
          jstok_str_scan json (pos + 2) rem1
        else if e = 'u' then
          match rem1 with
          | 0 => .needMore
          | rem2 + 1 =>
            if jstok_is_hex (getc json (pos + 2)) then
              match rem2 with
              | 0 => .needMore
              | rem3 + 1 =>
                if jstok_is_hex (getc json (pos + 3)) then
                  match rem3 with
                  | 0 => .needMore
                  | rem4 + 1 =>
                    if jstok_is_hex (getc json (pos + 4)) then
                      match rem4 with
                      | 0 => .needMore
                      | rem5 + 1 =>
                        if jstok_is_hex (getc json (pos + 5)) then
                          jstok_str_scan json (pos + 6) rem5
                        else .badAt (pos + 5)
                    else .badAt (pos + 4)
                else .badAt (pos + 3)
            else .badAt (pos + 2)
        else .badAt (pos + 1)
    else jstok_str_scan json (pos + 1) rem

/-- jstok_parse_string_token.  On Partial the position is rewound to the
opening quote; on Invalid it stays at the offending byte (as in C, where
`p->pos` was advanced by the scan). -/
def jstok_parse_string_token (json : List Char) (len : Nat) (maxT : Int) (c : JCore)
    (ts : Option (List JTok)) : Res (Int × JCore × Option (List JTok)) :=
  let start_quote := c.pos
  if len ≤ c.pos ∨ getc json c.pos ≠ '"' then .err ⟨JSTOK_ERROR_INVAL, c.pos⟩ c ts
  else
    match jstok_str_scan json (c.pos + 1) (len - (c.pos + 1)) with
    | .closedAt q =>
      match jstok_new_token { c with pos := q } ts maxT .STRING ((start_quote : Int) + 1) (q : Int) with
      | .error e => .err e { c with pos := q } ts
      | .ok (i, c1, ts1) => .ok (i, { c1 with pos := q + 1 }, ts1)
    | .badAt j => .err ⟨JSTOK_ERROR_INVAL, j⟩ { c with pos := j } ts
    | .needMore => .err ⟨JSTOK_ERROR_PART, len⟩ { c with pos := start_quote } ts

inductive LitRes where
  | ok
  | part (j : Nat)
  | bad (j : Nat)
deriving DecidableEq

/-- The matching loop of jstok_parse_literal; `j` is the absolute index. -/
def jstok_lit_scan (json : List Char) (len : Nat) : Nat → List Char → LitRes
  | _, [] => .ok
  | j, ch :: rest =>
    if len ≤ j then .part j
    else if getc json j ≠ ch then .bad j
    else jstok_lit_scan json len (j + 1) rest

/-- jstok_parse_literal: exact byte match, then the next byte must be a
delimiter or end-of-buffer (in which case the literal is accepted). -/
def jstok_parse_literal (json : List Char) (len : Nat) (c : JCore) (lit : List Char) :
    Except PErr Nat :=
  match jstok_lit_scan json len c.pos lit with
  | .part j => .error ⟨JSTOK_ERROR_PART, j⟩
  | .bad j => .error ⟨JSTOK_ERROR_INVAL, j⟩
  | .ok =>
    if c.pos + lit.length < len ∧ ¬ jstok_is_delim (getc json (c.pos + lit.length)) then
      .error ⟨JSTOK_ERROR_INVAL, c.pos + lit.length⟩
    else .ok lit.length

/-- A digit run: first index `≥ i` holding a non-digit; the second argument
is the remaining byte count `json_len - i`. -/
def jstok_digits_end (json : List Char) : Nat → Nat → Nat
  | i, 0 => i
  | i, rem + 1 => if jstok_is_digit (getc json i) then jstok_digits_end json (i + 1) rem else i

/-- Trailing end-of-number checks of jstok_parse_number_span: resume safety
(Partial at end-of-buffer) and delimiter enforcement. -/
def jstok_num_end (json : List Char) (len : Nat) (i : Nat) : Except PErr Nat :=
  if len ≤ i then .error ⟨JSTOK_ERROR_PART, i⟩
  else if ¬ jstok_is_delim (getc json i) then .error ⟨JSTOK_ERROR_INVAL, i⟩
  else .ok i

/-- Exponent part of jstok_parse_number_span. -/
def jstok_num_exp (json : List Char) (len : Nat) (i : Nat) : Except PErr Nat :=
  if i < len ∧ (getc json i = 'e' ∨ getc json i = 'E') then
    let i1 := i + 1
    if len ≤ i1 then .error ⟨JSTOK_ERROR_PART, i1⟩
    else
      let i2 := if getc json i1 = '+' ∨ getc json i1 = '-' then i1 + 1 else i1
      if len ≤ i2 then .error ⟨JSTOK_ERROR_PART, i2⟩
      else if ¬ jstok_is_digit (getc json i2) then .error ⟨JSTOK_ERROR_INVAL, i2⟩
      else jstok_num_end json len (jstok_digits_end json i2 (len - i2))
  else jstok_num_end json len i

/-- Fraction part of jstok_parse_number_span. -/
def jstok_num_frac (json : List Char) (len : Nat) (i : Nat) : Except PErr Nat :=
  if i < len ∧ getc json i = '.' then
    let i1 := i + 1
    if len ≤ i1 then .error ⟨JSTOK_ERROR_PART, i1⟩
    else if ¬ jstok_is_digit (getc json i1) then .error ⟨JSTOK_ERROR_INVAL, i1⟩
    else jstok_num_exp json len (jstok_digits_end json i1 (len - i1))
  else jstok_num_exp json len i

/-- Integer part of jstok_parse_number_span (after an optional minus sign);
the caller guarantees `i < len`. -/
def jstok_num_int (strict : Bool) (json : List Char) (len : Nat) (i : Nat) : Except PErr Nat :=
  if getc json i = '0' then
    let i1 := i + 1
    if i1 < len ∧ jstok_is_digit (getc json i1) ∧ strict then .error ⟨JSTOK_ERROR_INVAL, i1⟩
    else jstok_num_frac json len i1
  else if '1' ≤ getc json i ∧ getc json i ≤ '9' then
    jstok_num_frac json len (jstok_digits_end json (i + 1) (len - (i + 1)))
  else .error ⟨JSTOK_ERROR_INVAL, i⟩

/-- jstok_parse_number_span: on success returns the exclusive end offset. -/
def jstok_parse_number_span (strict : Bool) (json : List Char) (len : Nat) (pos : Nat) :
    Except PErr Nat :=
  if len ≤ pos then .error ⟨JSTOK_ERROR_PART, pos⟩
  else if getc json pos = '-' then
    if len ≤ pos + 1 then .error ⟨JSTOK_ERROR_PART, pos + 1⟩
    else jstok_num_int strict json len (pos + 1)
  else jstok_num_int strict json len pos

/-- jstok_parse_primitive_token -/
def jstok_parse_primitive_token (strict : Bool) (json : List Char) (len : Nat) (maxT : Int)
    (c : JCore) (ts : Option (List JTok)) : Res (Int × JCore × Option (List JTok)) :=
  let start := c.pos
  if len ≤ c.pos then .err ⟨JSTOK_ERROR_PART, c.pos⟩ c ts
  else if getc json c.pos = 't' then
    match jstok_parse_literal json len c ("true".toList) with
    | .error e => .err e c ts
    | .ok n =>
      let c1 : JCore := { c with pos := c.pos + n }
      match jstok_new_token c1 ts maxT .PRIMITIVE (start : Int) (c1.pos : Int) with
      | .error e => .err e c1 ts
      | .ok r => .ok r
  else if getc json c.pos = 'f' then
    match jstok_parse_literal json len c ("false".toList) with
    | .error e => .err e c ts
    | .ok n =>
      let c1 : JCore := { c with pos := c.pos + n }
      match jstok_new_token c1 ts maxT .PRIMITIVE (start : Int) (c1.pos : Int) with
      | .error e => .err e c1 ts
      | .ok r => .ok r
  else if getc json c.pos = 'n' then
    match jstok_parse_literal json len c ("null".toList) with
    | .error e => .err e c ts
    | .ok n =>
      let c1 : JCore := { c with pos := c.pos + n }
      match jstok_new_token c1 ts maxT .PRIMITIVE (start : Int) (c1.pos : Int) with
      | .error e => .err e c1 ts
      | .ok r => .ok r
  else
    match jstok_parse_number_span strict json len c.pos with
    | .error e => .err e c ts
    | .ok endp =>
      let c1 : JCore := { c with pos := endp }
      match jstok_new_token c1 ts maxT .PRIMITIVE (start : Int) (endp : Int) with
      | .error e => .err e c1 ts
      | .ok r => .ok r

/-- jstok_start_container (the json/json_len parameters are unused in C). -/
def jstok_start_container (strict : Bool) (maxT : Int) (ty : JType) (c : JCore)
    (ts : Option (List JTok)) : Res (Int × JCore × Option (List JTok)) :=
  match jstok_accept_value strict c ts with
  | .error e => .err e c ts
  | .ok (c1, ts1) =>
    match jstok_new_token c1 ts1 maxT ty (c1.pos : Int) (-1) with
    | .error e => .err e c1 ts1
    | .ok (ti, c2, ts2) =>
      let st := if ty = .OBJECT then JSt.OBJ_KEY_OR_END else JSt.ARR_VALUE_OR_END
      match jstok_push c2 ty st (match ts2 with | some _ => ti | none => -1) with
      | .error e => .err e c2 ts2
      | .ok c3 => .ok (ti, { c3 with pos := c3.pos + 1 }, ts2)

/-- jstok_end_container -/
def jstok_end_container (ty : JType) (c : JCore) (ts : Option (List JTok)) :
    Res (Int × JCore × Option (List JTok)) :=
  match c.stack with
  | [] => .err ⟨JSTOK_ERROR_INVAL, c.pos⟩ c ts
  | fr :: _ =>
    if fr.type ≠ ty then .err ⟨JSTOK_ERROR_INVAL, c.pos⟩ c ts
    else
      let okSt := if ty = .OBJECT then (fr.st = .OBJ_KEY_OR_END ∨ fr.st = .OBJ_COMMA_OR_END)
                  else (fr.st = .ARR_VALUE_OR_END ∨ fr.st = .ARR_COMMA_OR_END)
      if ¬ okSt then .err ⟨JSTOK_ERROR_INVAL, c.pos⟩ c ts
      else
        let ts' := match ts with
          | none => none
          | some l =>
            if fr.tok < 0 then some l
            else
              let i := fr.tok.toNat
              let t0 := l.getD i defJTok
              let t1 := { t0 with stop := (c.pos : Int) + 1 }
              let t2 := if t1.start < 0 then { t1 with start := (c.pos : Int) } else t1
              let t3 := if t2.type ≠ ty then { t2 with type := ty } else t2
              some (l.set i t3)
        .ok (0, { (jstok_pop c) with pos := c.pos + 1 }, ts')

inductive Step where
  | fail (e : PErr) (c : JCore) (ts : Option (List JTok))
  | next (c : JCore) (ts : Option (List JTok))
deriving DecidableEq

/-- Rollback of the accept_value side effects when the following recognizer
reported Partial (`fr?`/`saved_root` are the snapshots taken just before
accept_value). -/
def jstok_rollback (fr? : Option JFrame) (saved_root : Bool) (c : JCore)
    (ts : Option (List JTok)) : JCore × Option (List JTok) :=
  match fr? with
  | some fr =>
    ({ c with stack := match c.stack with
        | top :: rest => { top with st := fr.st } :: rest
        | [] => c.stack },
     match ts with
     | none => none
     | some l =>
       if fr.tok < 0 then some l
       else
         let t := l.getD fr.tok.toNat defJTok
         some (l.set fr.tok.toNat { t with size := t.size - 1 }))
  | none => ({ c with root_done := saved_root }, ts)

/-- The `"` branch of the main loop when the string is a value. -/
def jstok_step_value_string (strict : Bool) (json : List Char) (len : Nat) (maxT : Int)
    (c : JCore) (ts : Option (List JTok)) : Step :=
  let fr? := c.stack.head?
  let saved_root := c.root_done
  match jstok_accept_value strict c ts with
  | .error e => .fail e c ts
  | .ok (c1, ts1) =>
    match jstok_parse_string_token json len maxT c1 ts1 with
    | .err e c2 ts2 =>
      if e.code = JSTOK_ERROR_PART then
        let r := jstok_rollback fr? saved_root c2 ts2
        .fail e r.1 r.2
      else .fail e c2 ts2
    | .ok (_, c2, ts2) => .next c2 ts2

/-- The primitive branch of the main loop. -/
def jstok_step_value_prim (strict : Bool) (json : List Char) (len : Nat) (maxT : Int)
    (c : JCore) (ts : Option (List JTok)) : Step :=
  let fr? := c.stack.head?
  let saved_root := c.root_done
  match jstok_accept_value strict c ts with
  | .error e => .fail e c ts
  | .ok (c1, ts1) =>
    match jstok_parse_primitive_token strict json len maxT c1 ts1 with
    | .err e c2 ts2 =>
      if e.code = JSTOK_ERROR_PART then
        let r := jstok_rollback fr? saved_root c2 ts2
        .fail e r.1 r.2
      else .fail e c2 ts2
    | .ok (_, c2, ts2) => .next c2 ts2

/-- One iteration of the main loop of jstok_parse (only entered when
`c.pos < json_len`). -/
def jstok_step (strict : Bool) (json : List Char) (len : Nat) (maxT : Int) (c : JCore)
    (ts : Option (List JTok)) : Step :=
  let ch := getc json c.pos
  if jstok_is_space ch then .next { c with pos := c.pos + 1 } ts
  else if ch = '{' then
    match jstok_start_container strict maxT .OBJECT c ts with
    | .err e c' ts' => .fail e c' ts'
    | .ok (_, c', ts') => .next c' ts'
  else if ch = '[' then
    match jstok_start_container strict maxT .ARRAY c ts with
    | .err e c' ts' => .fail e c' ts'
    | .ok (_, c', ts') => .next c' ts'
  else if ch = '}' then
    match jstok_end_container .OBJECT c ts with
    | .err e c' ts' => .fail e c' ts'
    | .ok (_, c', ts') => .next c' ts'
  else if ch = ']' then
    match jstok_end_container .ARRAY c ts with
    | .err e c' ts' => .fail e c' ts'
    | .ok (_, c', ts') => .next c' ts'
  else if ch = ':' then
    match c.stack with
    | fr :: rest =>
      if fr.type = .OBJECT ∧ fr.st = .OBJ_COLON then
        .next { c with stack := { fr with st := .OBJ_VALUE } :: rest, pos := c.pos + 1 } ts
      else .fail ⟨JSTOK_ERROR_INVAL, c.pos⟩ c ts
    | [] => .fail ⟨JSTOK_ERROR_INVAL, c.pos⟩ c ts
  else if ch = ',' then
    match c.stack with
    | [] => .fail ⟨JSTOK_ERROR_INVAL, c.pos⟩ c ts
    | fr :: rest =>
      if fr.type = .OBJECT then
        if fr.st = .OBJ_COMMA_OR_END then
          .next { c with stack := { fr with st := .OBJ_KEY } :: rest, pos := c.pos + 1 } ts
        else .fail ⟨JSTOK_ERROR_INVAL, c.pos⟩ c ts
      else
        if fr.st = .ARR_COMMA_OR_END then
          .next { c with stack := { fr with st := .ARR_VALUE } :: rest, pos := c.pos + 1 } ts
        else .fail ⟨JSTOK_ERROR_INVAL, c.pos⟩ c ts
  else if ch = '"' then
    match c.stack.head? with
    | some fr =>
      if fr.type = .OBJECT ∧ (fr.st = .OBJ_KEY_OR_END ∨ fr.st = .OBJ_KEY) then
        match jstok_parse_string_token json len maxT c ts with
        | .err e c' ts' => .fail e c' ts'
        | .ok (_, c1, ts1) =>
          match jstok_accept_key c1 with
          | .error e => .fail e c1 ts1
          | .ok c2 => .next c2 ts1
      else jstok_step_value_string strict json len maxT c ts
    | none => jstok_step_value_string strict json len maxT c ts
  else jstok_step_value_prim strict json len maxT c ts

/-- The result of the scanning core of one jstok_parse call. -/
structure POut where
  ret : Int
  epos : Int
  core : JCore
  ts : Option (List JTok)
deriving DecidableEq

/-- End-of-input handling of jstok_parse (after the main loop). -/
def jstok_end_check (strict : Bool) (c : JCore) (ts : Option (List JTok)) : POut :=
  if strict ∧ c.stack.length = 0 ∧ c.root_done = false then ⟨JSTOK_ERROR_PART, (c.pos : Int), c, ts⟩
  else if c.stack.length ≠ 0 then ⟨JSTOK_ERROR_PART, (c.pos : Int), c, ts⟩
  else ⟨(c.toknext : Int), -1, c, ts⟩

/-- The main loop of jstok_parse.  Every iteration strictly advances `pos`
(see jstok_step_next_pos_lt), so the fuel `json_len + 1` supplied by
`jstok_parse` is never exhausted; the fuel-out result is a distinguishable
sentinel that none of the theorems below ever meet. -/
def jstok_loop (strict : Bool) (json : List Char) (len : Nat) (maxT : Int) :
    Nat → JCore → Option (List JTok) → POut
  | 0, c, ts => ⟨-5, -1, c, ts⟩
  | fuel + 1, c, ts =>
    if c.pos < len then
      match jstok_step strict json len maxT c ts with
      | .fail e c' ts' => ⟨e.code, (e.epos : Int), c', ts'⟩
      | .next c' ts' => jstok_loop strict json len maxT fuel c' ts'
    else jstok_end_check strict c ts

/-- jstok_parse.  `p?`/`json?` model the NULL-pointer checks; a negative
`json_len` is rejected the same way.  The error fields of the returned
parser reflect the reset-on-entry / set-on-return discipline of the C code. -/
def jstok_parse (strict : Bool) (p? : Option JParser) (json? : Option (List Char))
    (json_len : Int) (ts : Option (List JTok)) (maxT : Int) :
    Int × Option JParser × Option (List JTok) :=
  match p?, json? with
  | none, _ => (JSTOK_ERROR_INVAL, none, ts)
  | some p, none =>
    (JSTOK_ERROR_INVAL, some { p with error_code := JSTOK_ERROR_INVAL, error_pos := 0 }, ts)
  | some p, some json =>
    if json_len < 0 then
      (JSTOK_ERROR_INVAL, some { p with error_code := JSTOK_ERROR_INVAL, error_pos := 0 }, ts)
    else
      let len := json_len.toNat
      let out := jstok_loop strict json len maxT (len + 1) p.core ts
      (out.ret,
       some ⟨out.core.pos, out.core.toknext, out.core.stack, out.core.root_done,
             out.epos, if out.ret < 0 then out.ret else 0⟩,
       out.ts)

/- ------------------------------------------------------------------ -/
/- jstok_skip                                                          -/
/- ------------------------------------------------------------------ -/

/-- The explicit-stack loop of jstok_skip; `rem` is the stack of remaining
direct-children counters, top first (`sp` is its length). -/
def jstok_skip_loop (toks : List JTok) (count : Int) : Nat → List Int → Int
  | idx, [] => (idx : Int)
  | idx, r :: rs =>
    if r = 0 then jstok_skip_loop toks count idx rs
    else
      if count ≤ (idx : Int) then count
      else
        let t := toks.getD idx defJTok
        if t.type = .STRING ∨ t.type = .PRIMITIVE then
          jstok_skip_loop toks count (idx + 1) ((r - 1) :: rs)
        else if JSTOK_MAX_DEPTH ≤ ((r - 1) :: rs).length then count
        else if t.type = .ARRAY then
          jstok_skip_loop toks count (idx + 1) (t.size :: (r - 1) :: rs)
        else if t.type = .OBJECT then
          jstok_skip_loop toks count (idx + 1) (t.size * 2 :: (r - 1) :: rs)
        else
          jstok_skip_loop toks count (idx + 1) ((r - 1) :: rs)
  termination_by idx rs => (count.toNat - idx, rs.length)
  decreasing_by
    all_goals simp_wf
    · exact Prod.Lex.right _ (by omega)
    all_goals
      refine Prod.Lex.left _ _ ?_
      omega

/-- jstok_skip -/
def jstok_skip (toks? : Option (List JTok)) (count : Int) (i : Int) : Int :=
  match toks? with
  | none => count
  | some toks =>
    if i < 0 ∨ count ≤ i then count
    else
      let t := toks.getD i.toNat defJTok
      if t.type = .STRING ∨ t.type = .PRIMITIVE then i + 1
      else if t.type = .ARRAY then jstok_skip_loop toks count (i.toNat + 1) [t.size]
      else if t.type = .OBJECT then jstok_skip_loop toks count (i.toNat + 1) [t.size * 2]
      else i + 1

/- ------------------------------------------------------------------ -/
/- jstok_sse_next                                                      -/
/- ------------------------------------------------------------------ -/

/-- The newline scan of jstok_sse_next: first index `≥ j` holding a
linefeed; the second argument is the remaining byte count `len - j`. -/
def jstok_find_nl (buf : List Char) : Nat → Nat → Nat
  | j, 0 => j
  | j, rem + 1 => if getc buf j = '\n' then j else jstok_find_nl buf (j + 1) rem

/-- jstok_str_prefix, returning the prefix length on a full match and 0
otherwise (`base` is the line start, `line_len` its length). -/
def jstok_str_prefix_len (buf : List Char) (base : Nat) (line_len : Nat) :
    List Char → Nat → Nat
  | [], i => i
  | pch :: rest, i =>
    if line_len ≤ i then 0
    else if getc buf (base + i) ≠ pch then 0
    else jstok_str_prefix_len buf base line_len rest (i + 1)

/-- jstok_sse_next as a fueled loop over lines (the C function recurses on
itself for empty and non-data lines); the span is returned as
(payload offset, payload length).  Each recursion advances `pos` past a
newline, so the fuel `len + 1` supplied by `jstok_sse_next` suffices. -/
def jstok_sse_loop (buf : List Char) (len : Nat) : Nat → Nat → Int × Nat × Option (Nat × Nat)
  | 0, pos => (0, pos, none)
  | fuel + 1, pos =>
    let start := pos
    let i := jstok_find_nl buf start (len - start)
    if len ≤ i then (0, pos, none)
    else
      let ll0 := i - start
      let line_len := if 0 < ll0 ∧ getc buf (start + ll0 - 1) = '\r' then ll0 - 1 else ll0
      let pos' := i + 1
      if line_len = 0 then jstok_sse_loop buf len fuel pos'
      else
        let plen := jstok_str_prefix_len buf start line_len ("data:".toList) 0
        if 0 < plen then
          let payload_off := start + plen
          let payload_len := line_len - plen
          if 0 < payload_len ∧ getc buf payload_off = ' ' then
            (1, pos', some (payload_off + 1, payload_len - 1))
          else (1, pos', some (payload_off, payload_len))
        else jstok_sse_loop buf len fuel pos'

/-- jstok_sse_next: returns (1 = data found / 0 = need more, new pos, span).
Note the C code does NOT clamp `pos` to `len` on entry. -/
def jstok_sse_next (buf : List Char) (len : Nat) (pos : Nat) : Int × Nat × Option (Nat × Nat) :=
  jstok_sse_loop buf len (len + 1) pos

/- ------------------------------------------------------------------ -/
/- Erasure to count-only mode                                          -/
/- ------------------------------------------------------------------ -/

/-- Erase the token-array back-reference of a frame: in count-only mode
(`tokens == NULL`) jstok_push always records `-1`. -/
def eraseFrame (fr : JFrame) : JFrame := { fr with tok := -1 }

/-- The core state a count-only run holds when a token-mode run holds `c`:
identical except that every frame's `tok` is `-1`. -/
def eraseCore (c : JCore) : JCore := { c with stack := c.stack.map eraseFrame }

/-- Erasure of a step outcome. -/
def eraseStep : Step → Step
  | .fail e c _ => .fail e (eraseCore c) none
  | .next c _ => .next (eraseCore c) none

/-- Erasure of a loop outcome. -/
def eraseOut (o : POut) : POut := ⟨o.ret, o.epos, eraseCore o.core, none⟩

/- ------------------------------------------------------------------ -/
/- Supporting list lemmas                                              -/
/- ------------------------------------------------------------------ -/

set_option maxRecDepth 10000

theorem jstok_set_oob {α : Type} (l : List α) (i : Nat) (a : α) (h : l.length ≤ i) :
    l.set i a = l := by
  induction l generalizing i with
  | nil => rfl
  | cons x xs ih =>
    cases i with
    | zero => simp at h
    | succ j => simp only [List.set]; rw [ih j (by simpa using h)]

theorem jstok_set_getD_self {α : Type} (l : List α) (i : Nat) (d : α) :
    l.set i (l.getD i d) = l := by
  induction l generalizing i with
  | nil => rfl
  | cons x xs ih =>
    cases i with
    | zero => rfl
    | succ j => simp only [List.set, List.getD_cons_succ]; rw [ih j]

theorem jstok_getD_set_self {α : Type} (l : List α) (i : Nat) (a d : α) :
    (l.set i a).getD i d = if i < l.length then a else d := by
  induction l generalizing i with
  | nil => simp [List.getD]
  | cons x xs ih =>
    cases i with
    | zero => simp
    | succ j =>
      simp only [List.set, List.getD_cons_succ, List.length_cons]
      rw [ih j]
      simp only [Nat.succ_lt_succ_iff]

theorem jstok_set_set {α : Type} (l : List α) (i : Nat) (a b : α) :
    (l.set i a).set i b = l.set i b := by
  induction l generalizing i with
  | nil => rfl
  | cons x xs ih =>
    cases i with
    | zero => rfl
    | succ j => simp only [List.set]; rw [ih j]

/-- Incrementing then decrementing a container's size restores the token
array (the shape produced by accept_value followed by the Partial
rollback). -/
theorem jstok_inc_dec_cancel (l : List JTok) (k : Nat) :
    ((l.set k { l.getD k defJTok with size := (l.getD k defJTok).size + 1 }).set k
      { (l.set k { l.getD k defJTok with size := (l.getD k defJTok).size + 1 }).getD k defJTok with
        size := ((l.set k { l.getD k defJTok with size :=
          (l.getD k defJTok).size + 1 }).getD k defJTok).size - 1 }) = l := by
  by_cases h : k < l.length
  · rw [jstok_set_set]
    have hg : (l.set k { l.getD k defJTok with size := (l.getD k defJTok).size + 1 }).getD k defJTok
        = { l.getD k defJTok with size := (l.getD k defJTok).size + 1 } := by
      rw [jstok_getD_set_self]; simp [h]
    rw [hg]
    have : ({ l.getD k defJTok with size := (l.getD k defJTok).size + 1 - 1 } : JTok)
        = l.getD k defJTok := by
      cases hl : l.getD k defJTok with
      | mk ty st sp sz => simp
    simp only [this]
    exact jstok_set_getD_self l k defJTok
  · have h1 : l.set k { l.getD k defJTok with size := (l.getD k defJTok).size + 1 } = l :=
      jstok_set_oob _ _ _ (by omega)
    rw [h1, jstok_set_oob _ _ _ (by omega)]

/- ------------------------------------------------------------------ -/
/- Error-shape lemmas for the helpers                                  -/
/- ------------------------------------------------------------------ -/

theorem jstok_accept_value_err (strict : Bool) (c : JCore) (ts : Option (List JTok)) (e : PErr)
    (h : jstok_accept_value strict c ts = .error e) : e = ⟨JSTOK_ERROR_INVAL, c.pos⟩ := by
  unfold jstok_accept_value at h
  cases hs : c.stack with
  | nil =>
    rw [hs] at h
    by_cases hr : (strict && c.root_done) = true <;> simp [hr] at h
    exact h.symm
  | cons fr rest =>
    rw [hs] at h
    by_cases h1 : fr.type = JType.ARRAY
    · by_cases h2 : fr.st = JSt.ARR_VALUE_OR_END ∨ fr.st = JSt.ARR_VALUE <;>
        simp [h1, h2] at h
      exact h.symm
    · by_cases h2 : fr.type = JType.OBJECT
      · by_cases h3 : fr.st = JSt.OBJ_VALUE <;> simp [h1, h2, h3] at h
        exact h.symm
      · simp [h1, h2] at h
        exact h.symm

theorem jstok_accept_key_err (c : JCore) (e : PErr)
    (h : jstok_accept_key c = .error e) : e = ⟨JSTOK_ERROR_INVAL, c.pos⟩ := by
  unfold jstok_accept_key at h
  cases hs : c.stack with
  | nil => rw [hs] at h; simp at h; exact h.symm
  | cons fr rest =>
    rw [hs] at h
    by_cases h1 : fr.type = JType.OBJECT ∧ (fr.st = JSt.OBJ_KEY_OR_END ∨ fr.st = JSt.OBJ_KEY) <;>
      simp [h1] at h
    exact h.symm

theorem jstok_new_token_err (c : JCore) (ts : Option (List JTok)) (maxT : Int) (ty : JType)
    (start stop : Int) (e : PErr)
    (h : jstok_new_token c ts maxT ty start stop = .error e) : e = ⟨JSTOK_ERROR_NOMEM, c.pos⟩ := by
  unfold jstok_new_token at h
  cases ts with
  | none => simp at h
  | some l =>
    by_cases hm : maxT ≤ (c.toknext : Int) <;> simp [hm] at h
    exact h.symm

theorem jstok_push_err (c : JCore) (ty : JType) (st : JSt) (tok : Int) (e : PErr)
    (h : jstok_push c ty st tok = .error e) : e = ⟨JSTOK_ERROR_DEPTH, c.pos⟩ := by
  unfold jstok_push at h
  by_cases hd : JSTOK_MAX_DEPTH ≤ c.stack.length <;> simp [hd] at h
  exact h.symm

theorem jstok_start_container_err (strict : Bool) (maxT : Int) (ty : JType) (c : JCore)
    (ts : Option (List JTok)) (e : PErr) (c' : JCore) (ts' : Option (List JTok))
    (h : jstok_start_container strict maxT ty c ts = .err e c' ts') :
    e.code = JSTOK_ERROR_INVAL ∨ e.code = JSTOK_ERROR_NOMEM ∨ e.code = JSTOK_ERROR_DEPTH := by
  unfold jstok_start_container at h
  cases hav : jstok_accept_value strict c ts with
  | error e2 =>
    rw [hav] at h
    simp only [Res.err.injEq] at h
    rw [← h.1, jstok_accept_value_err strict c ts e2 hav]
    left; rfl
  | ok p =>
    obtain ⟨c1, ts1⟩ := p
    rw [hav] at h
    dsimp only at h
    cases hnt : jstok_new_token c1 ts1 maxT ty (c1.pos : Int) (-1) with
    | error e2 =>
      rw [hnt] at h
      simp only [Res.err.injEq] at h
      rw [← h.1, jstok_new_token_err _ _ _ _ _ _ _ hnt]
      right; left; rfl
    | ok q =>
      obtain ⟨ti, c2, ts2⟩ := q
      rw [hnt] at h
      dsimp only at h
      cases ts2 with
      | some l2 =>
        dsimp only at h
        cases hpu : jstok_push c2 ty
            (if ty = JType.OBJECT then JSt.OBJ_KEY_OR_END else JSt.ARR_VALUE_OR_END) ti with
        | error e2 =>
          rw [hpu] at h
          simp only [Res.err.injEq] at h
          rw [← h.1, jstok_push_err _ _ _ _ _ hpu]
          right; right; rfl
        | ok c3 => rw [hpu] at h; simp at h
      | none =>
        dsimp only at h
        cases hpu : jstok_push c2 ty
            (if ty = JType.OBJECT then JSt.OBJ_KEY_OR_END else JSt.ARR_VALUE_OR_END) (-1) with
        | error e2 =>
          rw [hpu] at h
          simp only [Res.err.injEq] at h
          rw [← h.1, jstok_push_err _ _ _ _ _ hpu]
          right; right; rfl
        | ok c3 => rw [hpu] at h; simp at h

theorem jstok_end_container_err (ty : JType) (c : JCore) (ts : Option (List JTok))
    (e : PErr) (c' : JCore) (ts' : Option (List JTok))
    (h : jstok_end_container ty c ts = .err e c' ts') :
    e = ⟨JSTOK_ERROR_INVAL, c.pos⟩ ∧ c' = c ∧ ts' = ts := by
  unfold jstok_end_container at h
  cases hs : c.stack with
  | nil =>
    rw [hs] at h
    simp only [Res.err.injEq] at h
    exact ⟨h.1.symm, h.2.1.symm, h.2.2.symm⟩
  | cons fr rest =>
    rw [hs] at h
    by_cases h1 : fr.type ≠ ty
    · simp only [if_pos h1, Res.err.injEq] at h
      exact ⟨h.1.symm, h.2.1.symm, h.2.2.symm⟩
    · simp only [if_neg h1] at h
      by_cases h2 : ¬ (if ty = JType.OBJECT then (fr.st = JSt.OBJ_KEY_OR_END ∨ fr.st = JSt.OBJ_COMMA_OR_END)
                  else (fr.st = JSt.ARR_VALUE_OR_END ∨ fr.st = JSt.ARR_COMMA_OR_END))
      · simp only [if_pos h2, Res.err.injEq] at h
        exact ⟨h.1.symm, h.2.1.symm, h.2.2.symm⟩
      · simp only [if_neg h2] at h
        simp at h

/- ------------------------------------------------------------------ -/
/- Partial leaves the state untouched                                  -/
/- ------------------------------------------------------------------ -/

/-- On Partial, jstok_parse_string_token rewinds `pos` to the opening quote
and leaves core, tokens untouched; the error position is the buffer end. -/
theorem jstok_string_token_part (json : List Char) (len : Nat) (maxT : Int) (c : JCore)
    (ts : Option (List JTok)) (e : PErr) (c' : JCore) (ts' : Option (List JTok))
    (h : jstok_parse_string_token json len maxT c ts = .err e c' ts')
    (hp : e.code = JSTOK_ERROR_PART) :
    c' = c ∧ ts' = ts ∧ e.epos = len := by
  unfold jstok_parse_string_token at h
  by_cases h1 : len ≤ c.pos ∨ getc json c.pos ≠ '"'
  · rw [if_pos h1] at h
    simp only [Res.err.injEq] at h
    rw [← h.1] at hp
    simp [JSTOK_ERROR_INVAL, JSTOK_ERROR_PART] at hp
  · rw [if_neg h1] at h
    cases hscan : jstok_str_scan json (c.pos + 1) (len - (c.pos + 1)) with
    | closedAt q =>
      rw [hscan] at h
      dsimp only at h
      cases hts : ts with
      | some l =>
        rw [hts] at h
        by_cases hm : maxT ≤ ({ c with pos := q } : JCore).toknext
        · simp only [jstok_new_token, if_pos hm, Res.err.injEq] at h
          rw [← h.1] at hp
          simp [JSTOK_ERROR_NOMEM, JSTOK_ERROR_PART] at hp
        · simp only [jstok_new_token, if_neg hm] at h
          simp at h
      | none => rw [hts] at h; simp only [jstok_new_token] at h; simp at h
    | badAt j =>
      rw [hscan] at h
      simp only [Res.err.injEq] at h
      rw [← h.1] at hp
      simp [JSTOK_ERROR_INVAL, JSTOK_ERROR_PART] at hp
    | needMore =>
      rw [hscan] at h
      simp only [Res.err.injEq] at h
      refine ⟨?_, h.2.2.symm, by rw [← h.1]⟩
      rw [← h.2.1]

/-- On any error, jstok_parse_literal does not move `pos` (it never touches
the core at all), and jstok_parse_number_span likewise; hence on Partial
jstok_parse_primitive_token leaves core and tokens untouched. -/
theorem jstok_primitive_token_part (strict : Bool) (json : List Char) (len : Nat) (maxT : Int)
    (c : JCore) (ts : Option (List JTok)) (e : PErr) (c' : JCore) (ts' : Option (List JTok))
    (h : jstok_parse_primitive_token strict json len maxT c ts = .err e c' ts')
    (hp : e.code = JSTOK_ERROR_PART) :
    c' = c ∧ ts' = ts := by
  unfold jstok_parse_primitive_token at h
  by_cases h0 : len ≤ c.pos
  · rw [if_pos h0] at h
    simp only [Res.err.injEq] at h
    exact ⟨h.2.1.symm, h.2.2.symm⟩
  · rw [if_neg h0] at h
    by_cases h1 : getc json c.pos = 't'
    · rw [if_pos h1] at h
      cases hl : jstok_parse_literal json len c ("true".toList) with
      | error e2 =>
        rw [hl] at h
        simp only [Res.err.injEq] at h
        exact ⟨h.2.1.symm, h.2.2.symm⟩
      | ok n =>
        rw [hl] at h
        dsimp only at h
        cases hts : ts with
        | some l =>
          rw [hts] at h
          by_cases hm : maxT ≤ ({ c with pos := c.pos + n } : JCore).toknext
          · simp only [jstok_new_token, if_pos hm, Res.err.injEq] at h
            rw [← h.1] at hp
            simp [JSTOK_ERROR_NOMEM, JSTOK_ERROR_PART] at hp
          · simp only [jstok_new_token, if_neg hm] at h; simp at h
        | none => rw [hts] at h; simp only [jstok_new_token] at h; simp at h
    · rw [if_neg h1] at h
      by_cases h2 : getc json c.pos = 'f'
      · rw [if_pos h2] at h
        cases hl : jstok_parse_literal json len c ("false".toList) with
        | error e2 =>
          rw [hl] at h
          simp only [Res.err.injEq] at h
          exact ⟨h.2.1.symm, h.2.2.symm⟩
        | ok n =>
          rw [hl] at h
          dsimp only at h
          cases hts : ts with
          | some l =>
            rw [hts] at h
            by_cases hm : maxT ≤ ({ c with pos := c.pos + n } : JCore).toknext
            · simp only [jstok_new_token, if_pos hm, Res.err.injEq] at h
              rw [← h.1] at hp
              simp [JSTOK_ERROR_NOMEM, JSTOK_ERROR_PART] at hp
            · simp only [jstok_new_token, if_neg hm] at h; simp at h
          | none => rw [hts] at h; simp only [jstok_new_token] at h; simp at h
      · rw [if_neg h2] at h
        by_cases h3 : getc json c.pos = 'n'
        · rw [if_pos h3] at h
          cases hl : jstok_parse_literal json len c ("null".toList) with
          | error e2 =>
            rw [hl] at h
            simp only [Res.err.injEq] at h
            exact ⟨h.2.1.symm, h.2.2.symm⟩
          | ok n =>
            rw [hl] at h
            dsimp only at h
            cases hts : ts with
            | some l =>
              rw [hts] at h
              by_cases hm : maxT ≤ ({ c with pos := c.pos + n } : JCore).toknext
              · simp only [jstok_new_token, if_pos hm, Res.err.injEq] at h
                rw [← h.1] at hp
                simp [JSTOK_ERROR_NOMEM, JSTOK_ERROR_PART] at hp
              · simp only [jstok_new_token, if_neg hm] at h; simp at h
            | none => rw [hts] at h; simp only [jstok_new_token] at h; simp at h
        · rw [if_neg h3] at h
          cases hn : jstok_parse_number_span strict json len c.pos with
          | error e2 =>
            rw [hn] at h
            simp only [Res.err.injEq] at h
            exact ⟨h.2.1.symm, h.2.2.symm⟩
          | ok endp =>
            rw [hn] at h
            dsimp only at h
            cases hts : ts with
            | some l =>
              rw [hts] at h
              by_cases hm : maxT ≤ ({ c with pos := endp } : JCore).toknext
              · simp only [jstok_new_token, if_pos hm, Res.err.injEq] at h
                rw [← h.1] at hp
                simp [JSTOK_ERROR_NOMEM, JSTOK_ERROR_PART] at hp
              · simp only [jstok_new_token, if_neg hm] at h; simp at h
            | none => rw [hts] at h; simp only [jstok_new_token] at h; simp at h

/-- Undoing one inc_container_size plus the sub-state change restores the
snapshot (the container case of the rollback). -/
theorem jstok_rollback_undo (c : JCore) (fr : JFrame) (rest : List JFrame) (st' : JSt)
    (ts : Option (List JTok)) (hs : c.stack = fr :: rest) :
    jstok_rollback (some fr) c.root_done
      { c with stack := { fr with st := st' } :: rest } (jstok_inc_container_size c ts) = (c, ts) := by
  have hhead : c.stack.head? = some fr := by rw [hs]; rfl
  simp only [jstok_rollback, jstok_inc_container_size, hhead, Prod.mk.injEq]
  constructor
  · cases c with
    | mk pos toknext stack rd =>
      cases fr with
      | mk ty st tok => simp_all
  · cases ts with
    | none => rfl
    | some l =>
      by_cases h4 : fr.tok < 0
      · simp [h4]
      · simp only [if_neg h4]
        exact congrArg some (jstok_inc_dec_cancel l fr.tok.toNat)

/-- The Partial rollback exactly undoes accept_value. -/
theorem jstok_accept_value_rollback (strict : Bool) (c : JCore) (ts : Option (List JTok))
    (c1 : JCore) (ts1 : Option (List JTok))
    (h : jstok_accept_value strict c ts = .ok (c1, ts1)) :
    jstok_rollback c.stack.head? c.root_done c1 ts1 = (c, ts) ∧
    c1.pos = c.pos ∧ c1.toknext = c.toknext := by
  unfold jstok_accept_value at h
  cases hs : c.stack with
  | nil =>
    rw [hs] at h
    dsimp only at h
    by_cases hr : (strict && c.root_done) = true
    · rw [if_pos hr] at h; simp at h
    · rw [if_neg hr] at h
      simp only [Except.ok.injEq, Prod.mk.injEq] at h
      obtain ⟨hc, hts⟩ := h
      subst hc hts
      refine ⟨?_, rfl, rfl⟩
      have hh : c.stack.head? = none := by rw [hs]; rfl
      simp only [jstok_rollback, hh]
      cases c with
      | mk pos toknext stack rd => simp_all
  | cons fr rest =>
    rw [hs] at h
    dsimp only at h
    have hhead : c.stack.head? = some fr := by rw [hs]; rfl
    by_cases h1 : fr.type = JType.ARRAY
    · rw [if_pos h1] at h
      by_cases h2 : fr.st = JSt.ARR_VALUE_OR_END ∨ fr.st = JSt.ARR_VALUE
      · rw [if_pos h2] at h
        simp only [Except.ok.injEq, Prod.mk.injEq] at h
        obtain ⟨hc, hts⟩ := h
        subst hc hts
        refine ⟨?_, rfl, rfl⟩
        rw [List.head?_cons]
        exact jstok_rollback_undo c fr rest _ ts hs
      · rw [if_neg h2] at h; simp at h
    · rw [if_neg h1] at h
      by_cases h2 : fr.type = JType.OBJECT
      · rw [if_pos h2] at h
        by_cases h3 : fr.st = JSt.OBJ_VALUE
        · rw [if_pos h3] at h
          simp only [Except.ok.injEq, Prod.mk.injEq] at h
          obtain ⟨hc, hts⟩ := h
          subst hc hts
          refine ⟨?_, rfl, rfl⟩
          rw [List.head?_cons]
          exact jstok_rollback_undo c fr rest _ ts hs
        · rw [if_neg h3] at h; simp at h
      · rw [if_neg h2] at h; simp at h

/-- If the string-value branch fails with Partial, the rollback has restored
the state exactly. -/
theorem jstok_step_value_string_part (strict : Bool) (json : List Char) (len : Nat) (maxT : Int)
    (c : JCore) (ts : Option (List JTok)) (e : PErr) (c' : JCore) (ts' : Option (List JTok))
    (h : jstok_step_value_string strict json len maxT c ts = .fail e c' ts')
    (hp : e.code = JSTOK_ERROR_PART) :
    c' = c ∧ ts' = ts := by
  unfold jstok_step_value_string at h
  cases hav : jstok_accept_value strict c ts with
  | error e2 =>
    rw [hav] at h
    dsimp only at h
    simp only [Step.fail.injEq] at h
    exact ⟨h.2.1.symm, h.2.2.symm⟩
  | ok p =>
    obtain ⟨c1, ts1⟩ := p
    rw [hav] at h
    dsimp only at h
    cases hst : jstok_parse_string_token json len maxT c1 ts1 with
    | ok r =>
      obtain ⟨i, c2, ts2⟩ := r
      rw [hst] at h
      simp at h
    | err e2 c2 ts2 =>
      rw [hst] at h
      dsimp only at h
      by_cases hc2 : e2.code = JSTOK_ERROR_PART
      · rw [if_pos hc2] at h
        simp only [Step.fail.injEq] at h
        obtain ⟨he, hc', hts'⟩ := h
        obtain ⟨hc2eq, hts2eq, _⟩ := jstok_string_token_part json len maxT c1 ts1 e2 c2 ts2 hst hc2
        obtain ⟨hroll, _, _⟩ := jstok_accept_value_rollback strict c ts c1 ts1 hav
        constructor
        · rw [← hc', hc2eq, hts2eq, hroll]
        · rw [← hts', hc2eq, hts2eq, hroll]
      · rw [if_neg hc2] at h
        simp only [Step.fail.injEq] at h
        exact absurd (by rw [h.1]; exact hp) hc2

/-- If the primitive branch fails with Partial, the rollback has restored
the state exactly. -/
theorem jstok_step_value_prim_part (strict : Bool) (json : List Char) (len : Nat) (maxT : Int)
    (c : JCore) (ts : Option (List JTok)) (e : PErr) (c' : JCore) (ts' : Option (List JTok))
    (h : jstok_step_value_prim strict json len maxT c ts = .fail e c' ts')
    (hp : e.code = JSTOK_ERROR_PART) :
    c' = c ∧ ts' = ts := by
  unfold jstok_step_value_prim at h
  cases hav : jstok_accept_value strict c ts with
  | error e2 =>
    rw [hav] at h
    dsimp only at h
    simp only [Step.fail.injEq] at h
    exact ⟨h.2.1.symm, h.2.2.symm⟩
  | ok p =>
    obtain ⟨c1, ts1⟩ := p
    rw [hav] at h
    dsimp only at h
    cases hst : jstok_parse_primitive_token strict json len maxT c1 ts1 with
    | ok r =>
      obtain ⟨i, c2, ts2⟩ := r
      rw [hst] at h
      simp at h
    | err e2 c2 ts2 =>
      rw [hst] at h
      dsimp only at h
      by_cases hc2 : e2.code = JSTOK_ERROR_PART
      · rw [if_pos hc2] at h
        simp only [Step.fail.injEq] at h
        obtain ⟨he, hc', hts'⟩ := h
        obtain ⟨hc2eq, hts2eq⟩ := jstok_primitive_token_part strict json len maxT c1 ts1 e2 c2 ts2 hst hc2
        obtain ⟨hroll, _, _⟩ := jstok_accept_value_rollback strict c ts c1 ts1 hav
        constructor
        · rw [← hc', hc2eq, hts2eq, hroll]
        · rw [← hts', hc2eq, hts2eq, hroll]
      · rw [if_neg hc2] at h
        simp only [Step.fail.injEq] at h
        exact absurd (by rw [h.1]; exact hp) hc2

/-- Core of the incremental-resume protocol: whenever one iteration of the
main loop fails with Partial, the parser core and the token array are
exactly as they were when the iteration started. -/
theorem jstok_step_part (strict : Bool) (json : List Char) (len : Nat) (maxT : Int)
    (c : JCore) (ts : Option (List JTok)) (e : PErr) (c' : JCore) (ts' : Option (List JTok))
    (h : jstok_step strict json len maxT c ts = .fail e c' ts')
    (hp : e.code = JSTOK_ERROR_PART) :
    c' = c ∧ ts' = ts := by
  unfold jstok_step at h
  by_cases h1 : jstok_is_space (getc json c.pos) = true
  · rw [if_pos h1] at h; simp at h
  · rw [if_neg h1] at h
    by_cases h2 : getc json c.pos = '{'
    · rw [if_pos h2] at h
      cases hsc : jstok_start_container strict maxT JType.OBJECT c ts with
      | err e2 c2 ts2 =>
        rw [hsc] at h
        simp only [Step.fail.injEq] at h
        exfalso
        rcases jstok_start_container_err _ _ _ _ _ _ _ _ hsc with hcode | hcode | hcode <;>
          · rw [← h.1] at hp
            rw [hcode] at hp
            exact absurd hp (by decide)
      | ok r =>
        obtain ⟨i, c2, ts2⟩ := r
        rw [hsc] at h
        simp at h
    · rw [if_neg h2] at h
      by_cases h3 : getc json c.pos = '['
      · rw [if_pos h3] at h
        cases hsc : jstok_start_container strict maxT JType.ARRAY c ts with
        | err e2 c2 ts2 =>
          rw [hsc] at h
          simp only [Step.fail.injEq] at h
          exfalso
          rcases jstok_start_container_err _ _ _ _ _ _ _ _ hsc with hcode | hcode | hcode <;>
            · rw [← h.1] at hp
              rw [hcode] at hp
              exact absurd hp (by decide)
        | ok r =>
          obtain ⟨i, c2, ts2⟩ := r
          rw [hsc] at h
          simp at h
      · rw [if_neg h3] at h
        by_cases h4 : getc json c.pos = '}'
        · rw [if_pos h4] at h
          cases hsc : jstok_end_container JType.OBJECT c ts with
          | err e2 c2 ts2 =>
            rw [hsc] at h
            simp only [Step.fail.injEq] at h
            obtain ⟨_, hc2, hts2⟩ := jstok_end_container_err _ _ _ _ _ _ hsc
            exact ⟨h.2.1 ▸ hc2, h.2.2 ▸ hts2⟩
          | ok r =>
            obtain ⟨i, c2, ts2⟩ := r
            rw [hsc] at h
            simp at h
        · rw [if_neg h4] at h
          by_cases h5 : getc json c.pos = ']'
          · rw [if_pos h5] at h
            cases hsc : jstok_end_container JType.ARRAY c ts with
            | err e2 c2 ts2 =>
              rw [hsc] at h
              simp only [Step.fail.injEq] at h
              obtain ⟨_, hc2, hts2⟩ := jstok_end_container_err _ _ _ _ _ _ hsc
              exact ⟨h.2.1 ▸ hc2, h.2.2 ▸ hts2⟩
            | ok r =>
              obtain ⟨i, c2, ts2⟩ := r
              rw [hsc] at h
              simp at h
          · rw [if_neg h5] at h
            by_cases h6 : getc json c.pos = ':'
            · rw [if_pos h6] at h
              cases hs : c.stack with
              | nil =>
                rw [hs] at h
                simp only [Step.fail.injEq] at h
                exact ⟨h.2.1.symm, h.2.2.symm⟩
              | cons fr rest =>
                rw [hs] at h
                dsimp only at h
                by_cases h7 : fr.type = JType.OBJECT ∧ fr.st = JSt.OBJ_COLON
                · rw [if_pos h7] at h; simp at h
                · rw [if_neg h7] at h
                  simp only [Step.fail.injEq] at h
                  exact ⟨h.2.1.symm, h.2.2.symm⟩
            · rw [if_neg h6] at h
              by_cases h8 : getc json c.pos = ','
              · rw [if_pos h8] at h
                cases hs : c.stack with
                | nil =>
                  rw [hs] at h
                  simp only [Step.fail.injEq] at h
                  exact ⟨h.2.1.symm, h.2.2.symm⟩
                | cons fr rest =>
                  rw [hs] at h
                  dsimp only at h
                  by_cases h7 : fr.type = JType.OBJECT
                  · rw [if_pos h7] at h
                    by_cases h9 : fr.st = JSt.OBJ_COMMA_OR_END
                    · rw [if_pos h9] at h; simp at h
                    · rw [if_neg h9] at h
                      simp only [Step.fail.injEq] at h
                      exact ⟨h.2.1.symm, h.2.2.symm⟩
                  · rw [if_neg h7] at h
                    by_cases h9 : fr.st = JSt.ARR_COMMA_OR_END
                    · rw [if_pos h9] at h; simp at h
                    · rw [if_neg h9] at h
                      simp only [Step.fail.injEq] at h
                      exact ⟨h.2.1.symm, h.2.2.symm⟩
              · rw [if_neg h8] at h
                by_cases h10 : getc json c.pos = '"'
                · rw [if_pos h10] at h
                  cases hhd : c.stack.head? with
                  | none =>
                    rw [hhd] at h
                    dsimp only at h
                    exact jstok_step_value_string_part strict json len maxT c ts e c' ts' h hp
                  | some fr =>
                    rw [hhd] at h
                    dsimp only at h
                    by_cases h11 : fr.type = JType.OBJECT ∧
                        (fr.st = JSt.OBJ_KEY_OR_END ∨ fr.st = JSt.OBJ_KEY)
                    · rw [if_pos h11] at h
                      cases hst : jstok_parse_string_token json len maxT c ts with
                      | err e2 c2 ts2 =>
                        rw [hst] at h
                        simp only [Step.fail.injEq] at h
                        have he2 : e2.code = JSTOK_ERROR_PART := by rw [h.1]; exact hp
                        obtain ⟨hc2, hts2, _⟩ :=
                          jstok_string_token_part json len maxT c ts e2 c2 ts2 hst he2
                        exact ⟨h.2.1 ▸ hc2, h.2.2 ▸ hts2⟩
                      | ok r =>
                        obtain ⟨i, c1, ts1⟩ := r
                        rw [hst] at h
                        dsimp only at h
                        cases hak : jstok_accept_key c1 with
                        | error e2 =>
                          rw [hak] at h
                          simp only [Step.fail.injEq] at h
                          exfalso
                          have := jstok_accept_key_err c1 e2 hak
                          rw [← h.1, this] at hp
                          simp [JSTOK_ERROR_INVAL, JSTOK_ERROR_PART] at hp
                        | ok c2 =>
                          rw [hak] at h
                          simp at h
                    · rw [if_neg h11] at h
                      exact jstok_step_value_string_part strict json len maxT c ts e c' ts' h hp
                · rw [if_neg h10] at h
                  exact jstok_step_value_prim_part strict json len maxT c ts e c' ts' h hp

/- ------------------------------------------------------------------ -/
/- Claim C2                                                            -/
/- ------------------------------------------------------------------ -/

/-- C2: when the string recognizer hits end-of-buffer inside a string or
mid-escape, jstok_parse returns Partial with `pos` rewound to the opening
quote and depth, toknext, root_done and every frame untouched (the core is
exactly as before the iteration that dispatched on the string, and the
token array is untouched); in particular parsing `"a\u12` from position 0
returns Partial with `pos` rewound to 0. -/
theorem c2_string_partial_rewind :
    (∀ (strict : Bool) (json : List Char) (len : Nat) (maxT : Int) (c : JCore)
       (ts : Option (List JTok)) (e : PErr) (c' : JCore) (ts' : Option (List JTok)),
      getc json c.pos = '"' →
      jstok_step strict json len maxT c ts = .fail e c' ts' →
      e.code = JSTOK_ERROR_PART →
      c' = c ∧ ts' = ts) ∧
    jstok_parse true (some jstok_init) (some ("\"a\\u12".toList)) 6 none 0 =
      (JSTOK_ERROR_PART, some ⟨0, 0, [], false, 6, JSTOK_ERROR_PART⟩, none) ∧
    jstok_parse false (some jstok_init) (some ("\"a\\u12".toList)) 6 none 0 =
      (JSTOK_ERROR_PART, some ⟨0, 0, [], false, 6, JSTOK_ERROR_PART⟩, none) := by
  refine ⟨?_, by decide, by decide⟩
  intro strict json len maxT c ts e c' ts' _ h hp
  exact jstok_step_part strict json len maxT c ts e c' ts' h hp

/-- C2 witness: the general part applied to the concrete input `"a\u12`
(the step on the fresh core fails with Partial and leaves the state
untouched). -/
theorem c2_string_partial_rewind_witness :
    ⟨0, 0, [], false⟩ = (⟨0, 0, [], false⟩ : JCore) ∧ none = (none : Option (List JTok)) :=
  c2_string_partial_rewind.1 true ("\"a\\u12".toList) 6 0 ⟨0, 0, [], false⟩ none
    ⟨JSTOK_ERROR_PART, 6⟩ ⟨0, 0, [], false⟩ none (by decide) (by decide) (by decide)

/- ------------------------------------------------------------------ -/
/- Claims C4 and C5: counterexamples                                   -/
/- ------------------------------------------------------------------ -/

/-- C4 counterexample: the 4-byte input `true` with end-of-buffer directly
after the literal does NOT give Partial; jstok_parse returns 1 and commits
the primitive token (in strict and permissive mode alike), because
jstok_parse_literal accepts end-of-buffer in place of a delimiter. -/
theorem c4_literal_eof_counterexample :
    (jstok_parse true (some jstok_init) (some ("true".toList)) 4
        (some (List.replicate 4 defJTok)) 4).1 = 1 ∧
    (jstok_parse false (some jstok_init) (some ("true".toList)) 4
        (some (List.replicate 4 defJTok)) 4).1 = 1 ∧
    (jstok_parse true (some jstok_init) (some ("true".toList)) 4
        (some (List.replicate 4 defJTok)) 4).2.2 =
      some (⟨.PRIMITIVE, 0, 4, 0⟩ :: List.replicate 3 defJTok) ∧
    (1 : Int) ≠ JSTOK_ERROR_PART := by
  refine ⟨by decide, by decide, by decide, by decide⟩

/-- C5 counterexample: on empty input (json_len = 0) the permissive
(non-strict) build returns 0 — success with zero tokens — not Partial. -/
theorem c5_empty_nonstrict_counterexample :
    (jstok_parse false (some jstok_init) (some []) 0 none 0).1 = 0 ∧
    (0 : Int) ≠ JSTOK_ERROR_PART := by
  refine ⟨by decide, by decide⟩

/- ------------------------------------------------------------------ -/
/- Claim C6                                                            -/
/- ------------------------------------------------------------------ -/

/-- C6: with the default depth limit 64, an input of exactly 64 nested
containers parses successfully (64 tokens), while an input opening a 65th
nested container returns Depth (-4); both in strict and permissive mode. -/
theorem c6_depth_boundary :
    (jstok_parse true (some jstok_init)
        (some (List.replicate 64 '[' ++ List.replicate 64 ']')) 128
        (some (List.replicate 70 defJTok)) 70).1 = 64 ∧
    (jstok_parse false (some jstok_init)
        (some (List.replicate 64 '[' ++ List.replicate 64 ']')) 128
        (some (List.replicate 70 defJTok)) 70).1 = 64 ∧
    (jstok_parse true (some jstok_init) (some (List.replicate 65 '[')) 65
        (some (List.replicate 70 defJTok)) 70).1 = JSTOK_ERROR_DEPTH ∧
    (jstok_parse false (some jstok_init) (some (List.replicate 65 '[')) 65
        (some (List.replicate 70 defJTok)) 70).1 = JSTOK_ERROR_DEPTH := by
  refine ⟨by decide, by decide, by decide, by decide⟩

/- ------------------------------------------------------------------ -/
/- Claim C7                                                            -/
/- ------------------------------------------------------------------ -/

/-- C7: one-shot parse of `[1,2,3]` returns 4 tokens: Array(0,7,size 3),
Primitive(1,2), Primitive(3,4), Primitive(5,6), all primitives of size 0
(identical in strict and permissive mode). -/
theorem c7_array_concrete :
    jstok_parse true (some jstok_init) (some ("[1,2,3]".toList)) 7
      (some (List.replicate 10 defJTok)) 10 =
    (4, some ⟨7, 4, [], true, -1, 0⟩,
     some ([⟨.ARRAY, 0, 7, 3⟩, ⟨.PRIMITIVE, 1, 2, 0⟩, ⟨.PRIMITIVE, 3, 4, 0⟩,
            ⟨.PRIMITIVE, 5, 6, 0⟩] ++ List.replicate 6 defJTok)) ∧
    jstok_parse false (some jstok_init) (some ("[1,2,3]".toList)) 7
      (some (List.replicate 10 defJTok)) 10 =
    (4, some ⟨7, 4, [], true, -1, 0⟩,
     some ([⟨.ARRAY, 0, 7, 3⟩, ⟨.PRIMITIVE, 1, 2, 0⟩, ⟨.PRIMITIVE, 3, 4, 0⟩,
            ⟨.PRIMITIVE, 5, 6, 0⟩] ++ List.replicate 6 defJTok)) := by
  refine ⟨by decide, by decide⟩

/- ------------------------------------------------------------------ -/
/- Claim C8                                                            -/
/- ------------------------------------------------------------------ -/

/-- C8 evidence: jstok_sse_next does NOT clamp `pos` to `len` on entry.
With `pos = 131 > len = 8` on a complete data line it returns NeedMore (0)
and leaves `pos` at 131 instead of clamping it to 8, contradicting the
spec and the repository test `test_pos_clamped_to_len`. -/
theorem c8_sse_no_clamp :
    jstok_sse_next ("data: x\n".toList) 8 131 = (0, 131, none) ∧ (131 : Nat) ≠ 8 := by
  refine ⟨by decide, by decide⟩

/- ------------------------------------------------------------------ -/
/- Claim C9                                                            -/
/- ------------------------------------------------------------------ -/

/-- C9: jstok_parse with a NULL parser, NULL json, or negative json_len
returns Invalid (-2) immediately, without touching the token array; when
the parser is non-NULL its error_code is set to -2 and error_pos to 0
while pos, toknext, depth (stack) and root_done are unchanged. -/
theorem c9_arg_validation (strict : Bool) (p : JParser) (json : List Char)
    (json? : Option (List Char)) (json_len : Int) (ts : Option (List JTok)) (maxT : Int) :
    jstok_parse strict none json? json_len ts maxT = (JSTOK_ERROR_INVAL, none, ts) ∧
    jstok_parse strict (some p) none json_len ts maxT =
      (JSTOK_ERROR_INVAL,
       some { p with error_code := JSTOK_ERROR_INVAL, error_pos := 0 }, ts) ∧
    (json_len < 0 →
      jstok_parse strict (some p) (some json) json_len ts maxT =
        (JSTOK_ERROR_INVAL,
         some { p with error_code := JSTOK_ERROR_INVAL, error_pos := 0 }, ts)) := by
  refine ⟨rfl, rfl, fun hneg => ?_⟩
  simp only [jstok_parse]
  rw [if_pos hneg]

/-- C9 witness at a concrete negative length. -/
theorem c9_arg_validation_witness :
    jstok_parse true (some jstok_init) (some ("x".toList)) (-1) none 5 =
      (JSTOK_ERROR_INVAL,
       some { jstok_init with error_code := JSTOK_ERROR_INVAL, error_pos := 0 }, none) :=
  (c9_arg_validation true jstok_init ("x".toList) none (-1) none 5).2.2 (by decide)

/- ------------------------------------------------------------------ -/
/- Claim C10                                                           -/
/- ------------------------------------------------------------------ -/

/-- The skip loop never returns less than the entry index and never more
than `count`, provided the entry index is at most `count`. -/
theorem jstok_skip_loop_bounds (toks : List JTok) (count : Int) :
    ∀ (idx : Nat) (rs : List Int), (idx : Int) ≤ count →
      (idx : Int) ≤ jstok_skip_loop toks count idx rs ∧
      jstok_skip_loop toks count idx rs ≤ count := by
  intro idx rs
  induction idx, rs using jstok_skip_loop.induct toks count with
  | case1 idx =>
    intro hle
    rw [jstok_skip_loop.eq_1]
    exact ⟨le_refl _, hle⟩
  | case2 idx rs ih =>
    intro hle
    rw [jstok_skip_loop.eq_2, if_pos (rfl : (0 : Int) = 0)]
    exact ih hle
  | case3 idx r rs hr hcnt =>
    intro hle
    rw [jstok_skip_loop.eq_2, if_neg hr, if_pos hcnt]
    exact ⟨hle, le_refl _⟩
  | case4 idx r rs hr hcnt t hty ih =>
    intro hle
    have ht : t = toks.getD idx defJTok := rfl
    rw [jstok_skip_loop.eq_2, if_neg hr, if_neg hcnt, ← ht]
    simp only [if_pos hty]
    obtain ⟨ha, hb⟩ := ih (by omega)
    exact ⟨by omega, hb⟩
  | case5 idx r rs hr hcnt t hty hdep =>
    intro hle
    have ht : t = toks.getD idx defJTok := rfl
    rw [jstok_skip_loop.eq_2, if_neg hr, if_neg hcnt, ← ht]
    simp only [if_neg hty, if_pos hdep]
    exact ⟨hle, le_refl _⟩
  | case6 idx r rs hr hcnt t hty hdep harr ih =>
    intro hle
    have ht : t = toks.getD idx defJTok := rfl
    rw [jstok_skip_loop.eq_2, if_neg hr, if_neg hcnt, ← ht]
    simp only [if_neg hty, if_neg hdep, if_pos harr]
    obtain ⟨ha, hb⟩ := ih (by omega)
    exact ⟨by omega, hb⟩
  | case7 idx r rs hr hcnt t hty hdep harr hobj ih =>
    intro hle
    have ht : t = toks.getD idx defJTok := rfl
    rw [jstok_skip_loop.eq_2, if_neg hr, if_neg hcnt, ← ht]
    simp only [if_neg hty, if_neg hdep, if_neg harr, if_pos hobj]
    obtain ⟨ha, hb⟩ := ih (by omega)
    exact ⟨by omega, hb⟩
  | case8 idx r rs hr hcnt t hty hdep harr hobj ih =>
    intro hle
    have ht : t = toks.getD idx defJTok := rfl
    rw [jstok_skip_loop.eq_2, if_neg hr, if_neg hcnt, ← ht]
    simp only [if_neg hty, if_neg hdep, if_neg harr, if_neg hobj]
    obtain ⟨ha, hb⟩ := ih (by omega)
    exact ⟨by omega, hb⟩

/-- C10: jstok_skip result bounds: for 0 ≤ i < count the result lies in
[i+1, count]; for a NULL token array or i out of range it equals count. -/
theorem c10_skip_bounds (toks : List JTok) (count i : Int) :
    (0 ≤ i → i < count →
      i + 1 ≤ jstok_skip (some toks) count i ∧ jstok_skip (some toks) count i ≤ count) ∧
    jstok_skip none count i = count ∧
    (i < 0 ∨ count ≤ i → jstok_skip (some toks) count i = count) := by
  refine ⟨fun h0 hlt => ?_, rfl, fun hbad => ?_⟩
  · simp only [jstok_skip]
    rw [if_neg (by push_neg; omega)]
    have hidx : ((i.toNat + 1 : Nat) : Int) ≤ count := by omega
    by_cases h1 : (toks.getD i.toNat defJTok).type = JType.STRING ∨
        (toks.getD i.toNat defJTok).type = JType.PRIMITIVE
    · rw [if_pos h1]; omega
    · rw [if_neg h1]
      by_cases h2 : (toks.getD i.toNat defJTok).type = JType.ARRAY
      · rw [if_pos h2]
        have := jstok_skip_loop_bounds toks count (i.toNat + 1) [(toks.getD i.toNat defJTok).size] hidx
        omega
      · rw [if_neg h2]
        by_cases h3 : (toks.getD i.toNat defJTok).type = JType.OBJECT
        · rw [if_pos h3]
          have := jstok_skip_loop_bounds toks count (i.toNat + 1) [(toks.getD i.toNat defJTok).size * 2] hidx
          omega
        · rw [if_neg h3]; omega
  · simp only [jstok_skip]
    rw [if_pos (by omega)]

/-- C10 witness: a concrete 3-token array (Array of two primitives),
skipping the root subtree. -/
theorem c10_skip_bounds_witness :
    (0 : Int) + 1 ≤ jstok_skip (some [⟨.ARRAY, 0, 5, 2⟩, ⟨.PRIMITIVE, 1, 2, 0⟩,
      ⟨.PRIMITIVE, 3, 4, 0⟩]) 3 0 ∧
    jstok_skip (some [⟨.ARRAY, 0, 5, 2⟩, ⟨.PRIMITIVE, 1, 2, 0⟩, ⟨.PRIMITIVE, 3, 4, 0⟩]) 3 0 ≤ 3 :=
  (c10_skip_bounds [⟨.ARRAY, 0, 5, 2⟩, ⟨.PRIMITIVE, 1, 2, 0⟩, ⟨.PRIMITIVE, 3, 4, 0⟩] 3 0).1
    (by decide) (by decide)

/- ------------------------------------------------------------------ -/
/- Claim C4 (amended): literal recognizer characterization             -/
/- ------------------------------------------------------------------ -/

theorem jstok_lit_scan_bad (json : List Char) (len : Nat) :
    ∀ (lit : List Char) (j i : Nat), i < lit.length → j + i < len →
      (∀ k, k < i → getc json (j + k) = lit.getD k ' ') →
      getc json (j + i) ≠ lit.getD i ' ' →
      jstok_lit_scan json len j lit = .bad (j + i) := by
  intro lit
  induction lit with
  | nil => intro j i hi; simp at hi
  | cons ch rest ih =>
    intro j i hi hlen hmatch hbad
    cases i with
    | zero =>
      rw [jstok_lit_scan]
      rw [if_neg (by omega)]
      rw [if_pos (by simpa using hbad)]
      simp
    | succ i' =>
      rw [jstok_lit_scan]
      rw [if_neg (by omega)]
      have h0 : getc json j = ch := by simpa using hmatch 0 (by omega)
      rw [if_neg (by simp [h0])]
      have := ih (j + 1) i' (by simpa using hi) (by omega)
        (fun k hk => by
          have := hmatch (k + 1) (by omega)
          simpa [Nat.add_assoc, Nat.add_comm 1 k] using this)
        (by
          have : j + 1 + i' = j + (i' + 1) := by omega
          rw [this]
          simpa using hbad)
      rw [this]
      congr 1
      omega

theorem jstok_lit_scan_part (json : List Char) (len : Nat) :
    ∀ (lit : List Char) (j : Nat), len < j + lit.length → j ≤ len →
      (∀ k, j + k < len → k < lit.length → getc json (j + k) = lit.getD k ' ') →
      jstok_lit_scan json len j lit = .part len := by
  intro lit
  induction lit with
  | nil => intro j h1 h2 _; simp only [List.length_nil] at h1; omega
  | cons ch rest ih =>
    intro j h1 h2 hmatch
    simp only [List.length_cons] at h1
    by_cases hj : len ≤ j
    · rw [jstok_lit_scan, if_pos hj]
      have : j = len := by omega
      rw [this]
    · rw [jstok_lit_scan, if_neg hj]
      have h0 : getc json j = ch := by simpa using hmatch 0 (by omega) (by simp)
      rw [if_neg (by simp [h0])]
      exact ih (j + 1) (by omega) (by omega)
        (fun k hk hk2 => by
          have := hmatch (k + 1) (by omega) (by simp; omega)
          simpa [Nat.add_assoc, Nat.add_comm 1 k] using this)

theorem jstok_lit_scan_ok (json : List Char) (len : Nat) :
    ∀ (lit : List Char) (j : Nat),
      (∀ k, k < lit.length → j + k < len ∧ getc json (j + k) = lit.getD k ' ') →
      jstok_lit_scan json len j lit = .ok := by
  intro lit
  induction lit with
  | nil => intro j _; rfl
  | cons ch rest ih =>
    intro j hmatch
    obtain ⟨hl0, hc0⟩ := hmatch 0 (by simp)
    rw [jstok_lit_scan, if_neg (by omega), if_neg (by simp at hc0; simp [hc0])]
    exact ih (j + 1) (fun k hk => by
      obtain ⟨ha, hb⟩ := hmatch (k + 1) (by simp; omega)
      exact ⟨by omega, by simpa [Nat.add_assoc, Nat.add_comm 1 k] using hb⟩)

/-- C4 (amended): the literal recognizer requires an exact byte match and a
mismatching byte is Invalid at that byte; end-of-buffer strictly inside the
literal is Partial; but a complete literal immediately followed by
end-of-buffer is ACCEPTED (returns the literal length, so the caller
commits the token) — EOF is treated like a delimiter, not as Partial. -/
theorem c4_literal_amended (json : List Char) (len : Nat) (c : JCore) (lit : List Char) :
    (∀ i, i < lit.length → c.pos + i < len →
      (∀ k, k < i → getc json (c.pos + k) = lit.getD k ' ') →
      getc json (c.pos + i) ≠ lit.getD i ' ' →
      jstok_parse_literal json len c lit = .error ⟨JSTOK_ERROR_INVAL, c.pos + i⟩) ∧
    (len < c.pos + lit.length → c.pos ≤ len →
      (∀ k, c.pos + k < len → k < lit.length → getc json (c.pos + k) = lit.getD k ' ') →
      jstok_parse_literal json len c lit = .error ⟨JSTOK_ERROR_PART, len⟩) ∧
    ((∀ k, k < lit.length → getc json (c.pos + k) = lit.getD k ' ') →
      c.pos + lit.length = len →
      jstok_parse_literal json len c lit = .ok lit.length) ∧
    ((∀ k, k < lit.length → getc json (c.pos + k) = lit.getD k ' ') →
      c.pos + lit.length < len → jstok_is_delim (getc json (c.pos + lit.length)) = true →
      jstok_parse_literal json len c lit = .ok lit.length) := by
  refine ⟨?_, ?_, ?_, ?_⟩
  · intro i hi hlen hmatch hbad
    unfold jstok_parse_literal
    rw [jstok_lit_scan_bad json len lit c.pos i hi hlen hmatch hbad]
  · intro h1 h2 hmatch
    unfold jstok_parse_literal
    rw [jstok_lit_scan_part json len lit c.pos h1 h2 hmatch]
  · intro hmatch heq
    unfold jstok_parse_literal
    rw [jstok_lit_scan_ok json len lit c.pos (fun k hk => ⟨by omega, hmatch k hk⟩)]
    rw [if_neg (by omega)]
  · intro hmatch hlt hdelim
    unfold jstok_parse_literal
    rw [jstok_lit_scan_ok json len lit c.pos (fun k hk => ⟨by omega, hmatch k hk⟩)]
    rw [if_neg (by push_neg; intro; simp [hdelim])]

/-- C4 (amended) witness: `true` at the very end of the buffer is accepted
with length 4 (the EOF-accept case), and `trux` is Invalid at byte 3. -/
theorem c4_literal_amended_witness :
    jstok_parse_literal ("true".toList) 4 ⟨0, 0, [], false⟩ ("true".toList) = .ok 4 ∧
    jstok_parse_literal ("trux".toList) 4 ⟨0, 0, [], false⟩ ("true".toList) =
      .error ⟨JSTOK_ERROR_INVAL, 3⟩ := by
  constructor
  · exact (c4_literal_amended ("true".toList) 4 ⟨0, 0, [], false⟩ ("true".toList)).2.2.1
      (by decide) (by decide)
  · exact (c4_literal_amended ("trux".toList) 4 ⟨0, 0, [], false⟩ ("true".toList)).1
      3 (by decide) (by decide) (by decide) (by decide)

/- ------------------------------------------------------------------ -/
/- Claim C5 (amended): empty / whitespace-only input                   -/
/- ------------------------------------------------------------------ -/

/-- The main loop on a whitespace-only remainder just advances pos to the
end and runs the end-of-input check. -/
theorem jstok_loop_ws (strict : Bool) (json : List Char) (len : Nat) (maxT : Int) :
    ∀ (fuel : Nat) (c : JCore) (ts : Option (List JTok)),
      (∀ i, c.pos ≤ i → i < len → jstok_is_space (getc json i) = true) →
      c.pos ≤ len → len + 1 - c.pos ≤ fuel →
      jstok_loop strict json len maxT fuel c ts =
        jstok_end_check strict { c with pos := len } ts := by
  intro fuel
  induction fuel with
  | zero => intro c ts _ h2 h3; omega
  | succ fuel ih =>
    intro c ts hws h2 h3
    rw [jstok_loop]
    by_cases hlt : c.pos < len
    · rw [if_pos hlt]
      have hstep : jstok_step strict json len maxT c ts = .next { c with pos := c.pos + 1 } ts := by
        unfold jstok_step
        rw [if_pos (hws c.pos (le_refl _) hlt)]
      rw [hstep]
      dsimp only
      have := ih { c with pos := c.pos + 1 } ts
        (fun i hi hl => hws i (by simp at hi; omega) hl) (by simp; omega) (by simp; omega)
      rw [this]
    · rw [if_neg hlt]
      have hpos : c.pos = len := by omega
      congr 1
      cases c with
      | mk pos toknext stack rd => simp_all

/-- C5 (amended): for empty or whitespace-only input (json_len = 0 or all
bytes whitespace), a freshly initialized parse returns Partial in strict
mode but returns 0 — success with zero tokens — in permissive mode. -/
theorem c5_whitespace_amended (json : List Char) (json_len : Int) (ts : Option (List JTok))
    (maxT : Int) (h0 : 0 ≤ json_len)
    (hws : ∀ i : Nat, i < json_len.toNat → jstok_is_space (getc json i) = true) :
    jstok_parse true (some jstok_init) (some json) json_len ts maxT =
      (JSTOK_ERROR_PART,
       some ⟨json_len.toNat, 0, [], false, (json_len.toNat : Int), JSTOK_ERROR_PART⟩, ts) ∧
    jstok_parse false (some jstok_init) (some json) json_len ts maxT =
      ((0 : Int), some ⟨json_len.toNat, 0, [], false, -1, 0⟩, ts) := by
  have hloop : ∀ strict, jstok_loop strict json json_len.toNat maxT (json_len.toNat + 1)
      (JParser.core jstok_init) ts =
      jstok_end_check strict ⟨json_len.toNat, 0, [], false⟩ ts := by
    intro strict
    have := jstok_loop_ws strict json json_len.toNat maxT (json_len.toNat + 1)
      (JParser.core jstok_init) ts (fun i _ hl => hws i hl) (by simp [JParser.core, jstok_init])
      (by simp [JParser.core, jstok_init])
    rw [this]
    rfl
  constructor
  · simp only [jstok_parse, if_neg (by omega : ¬ json_len < 0)]
    rw [hloop true]
    rfl
  · simp only [jstok_parse, if_neg (by omega : ¬ json_len < 0)]
    rw [hloop false]
    rfl

/-- C5 (amended) witness: two spaces; strict gives Partial, permissive 0. -/
theorem c5_whitespace_amended_witness :
    jstok_parse true (some jstok_init) (some ("  ".toList)) 2 none 0 =
      (JSTOK_ERROR_PART, some ⟨2, 0, [], false, 2, JSTOK_ERROR_PART⟩, none) ∧
    jstok_parse false (some jstok_init) (some ("  ".toList)) 2 none 0 =
      ((0 : Int), some ⟨2, 0, [], false, -1, 0⟩, none) :=
  c5_whitespace_amended ("  ".toList) 2 none 0 (by decide) (by decide)

/- ------------------------------------------------------------------ -/
/- Progress: every .next step strictly advances pos                    -/
/- ------------------------------------------------------------------ -/

theorem jstok_str_scan_closed_ge (json : List Char) :
    ∀ (rem pos q : Nat), jstok_str_scan json pos rem = .closedAt q → pos ≤ q := by
  intro rem
  induction rem using Nat.strong_induction_on with
  | _ rem ih =>
    intro pos q h
    match rem, h with
    | remp + 1, h =>
      rw [jstok_str_scan.eq_def] at h
      dsimp only at h
      by_cases h1 : (getc json pos).toNat < 0x20
      · rw [if_pos h1] at h; simp at h
      · rw [if_neg h1] at h
        by_cases h2 : getc json pos = '"'
        · rw [if_pos h2] at h
          simp only [StrScanRes.closedAt.injEq] at h
          omega
        · rw [if_neg h2] at h
          by_cases h3 : getc json pos = '\\'
          · rw [if_pos h3] at h
            match remp, h with
            | remq + 1, h =>
              dsimp only at h
              by_cases h4 : (getc json (pos + 1) = '"' || getc json (pos + 1) = '\\' ||
                  getc json (pos + 1) = '/' || getc json (pos + 1) = 'b' ||
                  getc json (pos + 1) = 'f' || getc json (pos + 1) = 'n' ||
                  getc json (pos + 1) = 'r' || getc json (pos + 1) = 't') = true
              · rw [if_pos h4] at h
                have := ih remq (by omega) (pos + 2) q h
                omega
              · rw [if_neg h4] at h
                by_cases h5 : getc json (pos + 1) = 'u'
                · rw [if_pos h5] at h
                  match remq, h with
                  | remr + 1, h =>
                    dsimp only at h
                    by_cases h6 : jstok_is_hex (getc json (pos + 2)) = true
                    · rw [if_pos h6] at h
                      match remr, h with
                      | rems + 1, h =>
                        dsimp only at h
                        by_cases h7 : jstok_is_hex (getc json (pos + 3)) = true
                        · rw [if_pos h7] at h
                          match rems, h with
                          | remt + 1, h =>
                            dsimp only at h
                            by_cases h8 : jstok_is_hex (getc json (pos + 4)) = true
                            · rw [if_pos h8] at h
                              match remt, h with
                              | remu + 1, h =>
                                dsimp only at h
                                by_cases h9 : jstok_is_hex (getc json (pos + 5)) = true
                                · rw [if_pos h9] at h
                                  have := ih remu (by omega) (pos + 6) q h
                                  omega
                                · rw [if_neg h9] at h; simp at h
                            · rw [if_neg h8] at h; simp at h
                        · rw [if_neg h7] at h; simp at h
                    · rw [if_neg h6] at h; simp at h
                · rw [if_neg h5] at h; simp at h
          · rw [if_neg h3] at h
            have := ih remp (by omega) (pos + 1) q h
            omega

theorem jstok_digits_end_ge (json : List Char) :
    ∀ (rem i : Nat), i ≤ jstok_digits_end json i rem := by
  intro rem
  induction rem with
  | zero => intro i; rw [jstok_digits_end]
  | succ rem ih =>
    intro i
    rw [jstok_digits_end]
    by_cases h : jstok_is_digit (getc json i) = true
    · rw [if_pos h]
      have := ih (i + 1)
      omega
    · rw [if_neg h]

theorem jstok_num_end_ge (json : List Char) (len i e : Nat)
    (h : jstok_num_end json len i = .ok e) : i ≤ e := by
  unfold jstok_num_end at h
  by_cases h1 : len ≤ i
  · rw [if_pos h1] at h; simp at h
  · rw [if_neg h1] at h
    by_cases h2 : ¬ jstok_is_delim (getc json i) = true
    · rw [if_pos h2] at h; simp at h
    · rw [if_neg h2] at h
      simp only [Except.ok.injEq] at h
      omega

theorem jstok_num_exp_ge (json : List Char) (len i e : Nat)
    (h : jstok_num_exp json len i = .ok e) : i ≤ e := by
  unfold jstok_num_exp at h
  by_cases h1 : i < len ∧ (getc json i = 'e' ∨ getc json i = 'E')
  · rw [if_pos h1] at h
    dsimp only at h
    by_cases h2 : len ≤ i + 1
    · rw [if_pos h2] at h; simp at h
    · rw [if_neg h2] at h
      by_cases h3 : getc json (i + 1) = '+' ∨ getc json (i + 1) = '-'
      all_goals first
        | (rw [if_pos h3] at h
           by_cases h4 : len ≤ i + 1 + 1
           · rw [if_pos h4] at h; simp at h
           · rw [if_neg h4] at h
             by_cases h5 : ¬ jstok_is_digit (getc json (i + 1 + 1)) = true
             · rw [if_pos h5] at h; simp at h
             · rw [if_neg h5] at h
               have h6 := jstok_num_end_ge json len _ _ h
               have h7 := jstok_digits_end_ge json (len - (i + 1 + 1)) (i + 1 + 1)
               omega)
        | (rw [if_neg h3] at h
           by_cases h4 : len ≤ i + 1
           · rw [if_pos h4] at h; simp at h
           · rw [if_neg h4] at h
             by_cases h5 : ¬ jstok_is_digit (getc json (i + 1)) = true
             · rw [if_pos h5] at h; simp at h
             · rw [if_neg h5] at h
               have h6 := jstok_num_end_ge json len _ _ h
               have h7 := jstok_digits_end_ge json (len - (i + 1)) (i + 1)
               omega)
  · rw [if_neg h1] at h
    exact jstok_num_end_ge json len i e h

theorem jstok_num_frac_ge (json : List Char) (len i e : Nat)
    (h : jstok_num_frac json len i = .ok e) : i ≤ e := by
  unfold jstok_num_frac at h
  by_cases h1 : i < len ∧ getc json i = '.'
  · rw [if_pos h1] at h
    dsimp only at h
    by_cases h2 : len ≤ i + 1
    · rw [if_pos h2] at h; simp at h
    · rw [if_neg h2] at h
      by_cases h3 : ¬ jstok_is_digit (getc json (i + 1)) = true
      · rw [if_pos h3] at h; simp at h
      · rw [if_neg h3] at h
        have h6 := jstok_num_exp_ge json len _ _ h
        have h7 := jstok_digits_end_ge json (len - (i + 1)) (i + 1)
        omega
  · rw [if_neg h1] at h
    exact jstok_num_exp_ge json len i e h

theorem jstok_num_int_gt (strict : Bool) (json : List Char) (len i e : Nat)
    (h : jstok_num_int strict json len i = .ok e) : i < e := by
  unfold jstok_num_int at h
  by_cases h1 : getc json i = '0'
  · rw [if_pos h1] at h
    dsimp only at h
    by_cases h2 : i + 1 < len ∧ jstok_is_digit (getc json (i + 1)) = true ∧ strict = true
    · rw [if_pos h2] at h; simp at h
    · rw [if_neg h2] at h
      have := jstok_num_frac_ge json len _ _ h
      omega
  · rw [if_neg h1] at h
    by_cases h2 : '1' ≤ getc json i ∧ getc json i ≤ '9'
    · rw [if_pos h2] at h
      have h6 := jstok_num_frac_ge json len _ _ h
      have h7 := jstok_digits_end_ge json (len - (i + 1)) (i + 1)
      omega
    · rw [if_neg h2] at h; simp at h

theorem jstok_number_span_gt (strict : Bool) (json : List Char) (len pos e : Nat)
    (h : jstok_parse_number_span strict json len pos = .ok e) : pos < e := by
  unfold jstok_parse_number_span at h
  by_cases h1 : len ≤ pos
  · rw [if_pos h1] at h; simp at h
  · rw [if_neg h1] at h
    by_cases h2 : getc json pos = '-'
    · rw [if_pos h2] at h
      by_cases h3 : len ≤ pos + 1
      · rw [if_pos h3] at h; simp at h
      · rw [if_neg h3] at h
        have := jstok_num_int_gt strict json len _ _ h
        omega
    · rw [if_neg h2] at h
      exact jstok_num_int_gt strict json len _ _ h

theorem jstok_new_token_ok (c : JCore) (ts : Option (List JTok)) (maxT : Int) (ty : JType)
    (start stop : Int) (i : Int) (c' : JCore) (ts' : Option (List JTok))
    (h : jstok_new_token c ts maxT ty start stop = .ok (i, c', ts')) :
    c' = { c with toknext := c.toknext + 1 } ∧ i = (c.toknext : Int) := by
  unfold jstok_new_token at h
  cases ts with
  | none =>
    simp only [Except.ok.injEq, Prod.mk.injEq] at h
    exact ⟨h.2.1.symm, h.1.symm⟩
  | some l =>
    dsimp only at h
    by_cases hm : maxT ≤ (c.toknext : Int)
    · rw [if_pos hm] at h; simp at h
    · rw [if_neg hm] at h
      simp only [Except.ok.injEq, Prod.mk.injEq] at h
      exact ⟨h.2.1.symm, h.1.symm⟩

theorem jstok_push_ok (c : JCore) (ty : JType) (st : JSt) (tok : Int) (c' : JCore)
    (h : jstok_push c ty st tok = .ok c') :
    c' = { c with stack := ⟨ty, st, tok⟩ :: c.stack } := by
  unfold jstok_push at h
  by_cases hd : JSTOK_MAX_DEPTH ≤ c.stack.length
  · rw [if_pos hd] at h; simp at h
  · rw [if_neg hd] at h
    simp only [Except.ok.injEq] at h
    exact h.symm

theorem jstok_accept_key_ok (c : JCore) (c' : JCore) (h : jstok_accept_key c = .ok c') :
    c'.pos = c.pos ∧ c'.toknext = c.toknext := by
  unfold jstok_accept_key at h
  cases hs : c.stack with
  | nil => rw [hs] at h; simp at h
  | cons fr rest =>
    rw [hs] at h
    dsimp only at h
    by_cases h1 : fr.type = JType.OBJECT ∧ (fr.st = JSt.OBJ_KEY_OR_END ∨ fr.st = JSt.OBJ_KEY)
    · rw [if_pos h1] at h
      simp only [Except.ok.injEq] at h
      rw [← h]
      exact ⟨rfl, rfl⟩
    · rw [if_neg h1] at h; simp at h

theorem jstok_string_token_ok (json : List Char) (len : Nat) (maxT : Int) (c : JCore)
    (ts : Option (List JTok)) (i : Int) (c' : JCore) (ts' : Option (List JTok))
    (h : jstok_parse_string_token json len maxT c ts = .ok (i, c', ts')) :
    c.pos < c'.pos ∧ c'.toknext = c.toknext + 1 := by
  unfold jstok_parse_string_token at h
  by_cases h1 : len ≤ c.pos ∨ getc json c.pos ≠ '"'
  · rw [if_pos h1] at h; simp at h
  · rw [if_neg h1] at h
    cases hscan : jstok_str_scan json (c.pos + 1) (len - (c.pos + 1)) with
    | closedAt q =>
      rw [hscan] at h
      dsimp only at h
      cases hnt : jstok_new_token { c with pos := q } ts maxT JType.STRING
          ((c.pos : Int) + 1) (q : Int) with
      | error e => rw [hnt] at h; simp at h
      | ok r =>
        obtain ⟨i2, c2, ts2⟩ := r
        rw [hnt] at h
        simp only [Res.ok.injEq, Prod.mk.injEq] at h
        obtain ⟨hc2, _⟩ := jstok_new_token_ok _ _ _ _ _ _ _ _ _ hnt
        have hq := jstok_str_scan_closed_ge json (len - (c.pos + 1)) (c.pos + 1) q hscan
        have hc' : c' = { c2 with pos := q + 1 } := h.2.1.symm
        rw [hc', hc2]
        dsimp only
        exact ⟨by omega, rfl⟩
    | badAt j => rw [hscan] at h; simp at h
    | needMore => rw [hscan] at h; simp at h

theorem jstok_literal_ok_n (json : List Char) (len : Nat) (c : JCore) (lit : List Char) (n : Nat)
    (h : jstok_parse_literal json len c lit = .ok n) : n = lit.length := by
  unfold jstok_parse_literal at h
  cases hs : jstok_lit_scan json len c.pos lit with
  | part j => rw [hs] at h; simp at h
  | bad j => rw [hs] at h; simp at h
  | ok =>
    rw [hs] at h
    dsimp only at h
    by_cases h1 : c.pos + lit.length < len ∧ ¬ jstok_is_delim (getc json (c.pos + lit.length)) = true
    · rw [if_pos h1] at h; simp at h
    · rw [if_neg h1] at h
      simp only [Except.ok.injEq] at h
      exact h.symm

theorem jstok_primitive_token_ok (strict : Bool) (json : List Char) (len : Nat) (maxT : Int)
    (c : JCore) (ts : Option (List JTok)) (i : Int) (c' : JCore) (ts' : Option (List JTok))
    (h : jstok_parse_primitive_token strict json len maxT c ts = .ok (i, c', ts')) :
    c.pos < c'.pos ∧ c'.toknext = c.toknext + 1 := by
  unfold jstok_parse_primitive_token at h
  by_cases h0 : len ≤ c.pos
  · rw [if_pos h0] at h; simp at h
  · rw [if_neg h0] at h
    by_cases h1 : getc json c.pos = 't'
    · rw [if_pos h1] at h
      cases hl : jstok_parse_literal json len c ("true".toList) with
      | error e2 => rw [hl] at h; simp at h
      | ok n =>
        rw [hl] at h
        dsimp only at h
        cases hnt : jstok_new_token { c with pos := c.pos + n } ts maxT JType.PRIMITIVE
            (c.pos : Int) (((c.pos + n : Nat)) : Int) with
        | error e => rw [hnt] at h; simp at h
        | ok r =>
          obtain ⟨i2, c2, ts2⟩ := r
          rw [hnt] at h
          simp only [Res.ok.injEq, Prod.mk.injEq] at h
          obtain ⟨hc2, _⟩ := jstok_new_token_ok _ _ _ _ _ _ _ _ _ hnt
          have hn := jstok_literal_ok_n json len c _ n hl
          have hn0 : 0 < n := by rw [hn]; decide
          rw [← h.2.1, hc2]
          dsimp only
          exact ⟨by omega, rfl⟩
    · rw [if_neg h1] at h
      by_cases h2 : getc json c.pos = 'f'
      · rw [if_pos h2] at h
        cases hl : jstok_parse_literal json len c ("false".toList) with
        | error e2 => rw [hl] at h; simp at h
        | ok n =>
          rw [hl] at h
          dsimp only at h
          cases hnt : jstok_new_token { c with pos := c.pos + n } ts maxT JType.PRIMITIVE
              (c.pos : Int) (((c.pos + n : Nat)) : Int) with
          | error e => rw [hnt] at h; simp at h
          | ok r =>
            obtain ⟨i2, c2, ts2⟩ := r
            rw [hnt] at h
            simp only [Res.ok.injEq, Prod.mk.injEq] at h
            obtain ⟨hc2, _⟩ := jstok_new_token_ok _ _ _ _ _ _ _ _ _ hnt
            have hn := jstok_literal_ok_n json len c _ n hl
            have hn0 : 0 < n := by rw [hn]; decide
            rw [← h.2.1, hc2]
            dsimp only
            exact ⟨by omega, rfl⟩
      · rw [if_neg h2] at h
        by_cases h3 : getc json c.pos = 'n'
        · rw [if_pos h3] at h
          cases hl : jstok_parse_literal json len c ("null".toList) with
          | error e2 => rw [hl] at h; simp at h
          | ok n =>
            rw [hl] at h
            dsimp only at h
            cases hnt : jstok_new_token { c with pos := c.pos + n } ts maxT JType.PRIMITIVE
                (c.pos : Int) (((c.pos + n : Nat)) : Int) with
            | error e => rw [hnt] at h; simp at h
            | ok r =>
              obtain ⟨i2, c2, ts2⟩ := r
              rw [hnt] at h
              simp only [Res.ok.injEq, Prod.mk.injEq] at h
              obtain ⟨hc2, _⟩ := jstok_new_token_ok _ _ _ _ _ _ _ _ _ hnt
              have hn := jstok_literal_ok_n json len c _ n hl
              have hn0 : 0 < n := by rw [hn]; decide
              rw [← h.2.1, hc2]
              dsimp only
              exact ⟨by omega, rfl⟩
        · rw [if_neg h3] at h
          cases hn : jstok_parse_number_span strict json len c.pos with
          | error e2 => rw [hn] at h; simp at h
          | ok endp =>
            rw [hn] at h
            dsimp only at h
            cases hnt : jstok_new_token { c with pos := endp } ts maxT JType.PRIMITIVE
                (c.pos : Int) (endp : Int) with
            | error e => rw [hnt] at h; simp at h
            | ok r =>
              obtain ⟨i2, c2, ts2⟩ := r
              rw [hnt] at h
              simp only [Res.ok.injEq, Prod.mk.injEq] at h
              obtain ⟨hc2, _⟩ := jstok_new_token_ok _ _ _ _ _ _ _ _ _ hnt
              have hgt := jstok_number_span_gt strict json len c.pos endp hn
              rw [← h.2.1, hc2]
              dsimp only
              exact ⟨hgt, rfl⟩

theorem jstok_start_container_ok (strict : Bool) (maxT : Int) (ty : JType) (c : JCore)
    (ts : Option (List JTok)) (i : Int) (c' : JCore) (ts' : Option (List JTok))
    (h : jstok_start_container strict maxT ty c ts = .ok (i, c', ts')) :
    c'.pos = c.pos + 1 ∧ c'.toknext = c.toknext + 1 := by
  unfold jstok_start_container at h
  cases hav : jstok_accept_value strict c ts with
  | error e => rw [hav] at h; simp at h
  | ok p =>
    obtain ⟨c1, ts1⟩ := p
    rw [hav] at h
    dsimp only at h
    obtain ⟨_, hpos1, htok1⟩ := jstok_accept_value_rollback strict c ts c1 ts1 hav
    cases hnt : jstok_new_token c1 ts1 maxT ty (c1.pos : Int) (-1) with
    | error e => rw [hnt] at h; simp at h
    | ok r =>
      obtain ⟨ti, c2, ts2⟩ := r
      rw [hnt] at h
      dsimp only at h
      obtain ⟨hc2, _⟩ := jstok_new_token_ok _ _ _ _ _ _ _ _ _ hnt
      cases ts2 with
      | some l2 =>
        dsimp only at h
        cases hpu : jstok_push c2 ty
            (if ty = JType.OBJECT then JSt.OBJ_KEY_OR_END else JSt.ARR_VALUE_OR_END) ti with
        | error e => rw [hpu] at h; simp at h
        | ok c3 =>
          rw [hpu] at h
          simp only [Res.ok.injEq, Prod.mk.injEq] at h
          have hc3 := jstok_push_ok _ _ _ _ _ hpu
          rw [← h.2.1, hc3, hc2]
          dsimp only
          omega
      | none =>
        dsimp only at h
        cases hpu : jstok_push c2 ty
            (if ty = JType.OBJECT then JSt.OBJ_KEY_OR_END else JSt.ARR_VALUE_OR_END) (-1) with
        | error e => rw [hpu] at h; simp at h
        | ok c3 =>
          rw [hpu] at h
          simp only [Res.ok.injEq, Prod.mk.injEq] at h
          have hc3 := jstok_push_ok _ _ _ _ _ hpu
          rw [← h.2.1, hc3, hc2]
          dsimp only
          omega

theorem jstok_end_container_ok (ty : JType) (c : JCore) (ts : Option (List JTok))
    (i : Int) (c' : JCore) (ts' : Option (List JTok))
    (h : jstok_end_container ty c ts = .ok (i, c', ts')) :
    c'.pos = c.pos + 1 ∧ c'.toknext = c.toknext := by
  unfold jstok_end_container at h
  cases hs : c.stack with
  | nil => rw [hs] at h; simp at h
  | cons fr rest =>
    rw [hs] at h
    dsimp only at h
    by_cases h1 : fr.type ≠ ty
    · rw [if_pos h1] at h; simp at h
    · rw [if_neg h1] at h
      by_cases h2 : ¬ (if ty = JType.OBJECT then (fr.st = JSt.OBJ_KEY_OR_END ∨ fr.st = JSt.OBJ_COMMA_OR_END)
                  else (fr.st = JSt.ARR_VALUE_OR_END ∨ fr.st = JSt.ARR_COMMA_OR_END))
      · rw [if_pos h2] at h; simp at h
      · rw [if_neg h2] at h
        simp only [Res.ok.injEq, Prod.mk.injEq] at h
        rw [← h.2.1]
        simp [jstok_pop]

/-- Every continuing iteration of the main loop strictly advances `pos` and
allocates at most one token. -/
theorem jstok_step_next_incr (strict : Bool) (json : List Char) (len : Nat) (maxT : Int)
    (c : JCore) (ts : Option (List JTok)) (c' : JCore) (ts' : Option (List JTok))
    (h : jstok_step strict json len maxT c ts = .next c' ts') :
    c.pos < c'.pos ∧ c'.toknext ≤ c.toknext + 1 := by
  unfold jstok_step at h
  by_cases h1 : jstok_is_space (getc json c.pos) = true
  · rw [if_pos h1] at h
    simp only [Step.next.injEq] at h
    rw [← h.1]
    simp
  · rw [if_neg h1] at h
    by_cases h2 : getc json c.pos = '{'
    · rw [if_pos h2] at h
      cases hsc : jstok_start_container strict maxT JType.OBJECT c ts with
      | err e c2 ts2 => rw [hsc] at h; simp at h
      | ok r =>
        obtain ⟨i, c2, ts2⟩ := r
        rw [hsc] at h
        simp only [Step.next.injEq] at h
        obtain ⟨ha, hb⟩ := jstok_start_container_ok _ _ _ _ _ _ _ _ hsc
        rw [← h.1]
        omega
    · rw [if_neg h2] at h
      by_cases h3 : getc json c.pos = '['
      · rw [if_pos h3] at h
        cases hsc : jstok_start_container strict maxT JType.ARRAY c ts with
        | err e c2 ts2 => rw [hsc] at h; simp at h
        | ok r =>
          obtain ⟨i, c2, ts2⟩ := r
          rw [hsc] at h
          simp only [Step.next.injEq] at h
          obtain ⟨ha, hb⟩ := jstok_start_container_ok _ _ _ _ _ _ _ _ hsc
          rw [← h.1]
          omega
      · rw [if_neg h3] at h
        by_cases h4 : getc json c.pos = '}'
        · rw [if_pos h4] at h
          cases hsc : jstok_end_container JType.OBJECT c ts with
          | err e c2 ts2 => rw [hsc] at h; simp at h
          | ok r =>
            obtain ⟨i, c2, ts2⟩ := r
            rw [hsc] at h
            simp only [Step.next.injEq] at h
            obtain ⟨ha, hb⟩ := jstok_end_container_ok _ _ _ _ _ _ hsc
            rw [← h.1]
            omega
        · rw [if_neg h4] at h
          by_cases h5 : getc json c.pos = ']'
          · rw [if_pos h5] at h
            cases hsc : jstok_end_container JType.ARRAY c ts with
            | err e c2 ts2 => rw [hsc] at h; simp at h
            | ok r =>
              obtain ⟨i, c2, ts2⟩ := r
              rw [hsc] at h
              simp only [Step.next.injEq] at h
              obtain ⟨ha, hb⟩ := jstok_end_container_ok _ _ _ _ _ _ hsc
              rw [← h.1]
              omega
          · rw [if_neg h5] at h
            by_cases h6 : getc json c.pos = ':'
            · rw [if_pos h6] at h
              cases hs : c.stack with
              | nil => rw [hs] at h; simp at h
              | cons fr rest =>
                rw [hs] at h
                dsimp only at h
                by_cases h7 : fr.type = JType.OBJECT ∧ fr.st = JSt.OBJ_COLON
                · rw [if_pos h7] at h
                  simp only [Step.next.injEq] at h
                  rw [← h.1]
                  simp
                · rw [if_neg h7] at h; simp at h
            · rw [if_neg h6] at h
              by_cases h8 : getc json c.pos = ','
              · rw [if_pos h8] at h
                cases hs : c.stack with
                | nil => rw [hs] at h; simp at h
                | cons fr rest =>
                  rw [hs] at h
                  dsimp only at h
                  by_cases h7 : fr.type = JType.OBJECT
                  · rw [if_pos h7] at h
                    by_cases h9 : fr.st = JSt.OBJ_COMMA_OR_END
                    · rw [if_pos h9] at h
                      simp only [Step.next.injEq] at h
                      rw [← h.1]
                      simp
                    · rw [if_neg h9] at h; simp at h
                  · rw [if_neg h7] at h
                    by_cases h9 : fr.st = JSt.ARR_COMMA_OR_END
                    · rw [if_pos h9] at h
                      simp only [Step.next.injEq] at h
                      rw [← h.1]
                      simp
                    · rw [if_neg h9] at h; simp at h
              · rw [if_neg h8] at h
                by_cases h10 : getc json c.pos = '"'
                · rw [if_pos h10] at h
                  have hval : ∀ (hv : jstok_step_value_string strict json len maxT c ts = .next c' ts'),
                      c.pos < c'.pos ∧ c'.toknext ≤ c.toknext + 1 := by
                    intro hv
                    unfold jstok_step_value_string at hv
                    cases hav : jstok_accept_value strict c ts with
                    | error e => rw [hav] at hv; simp at hv
                    | ok p =>
                      obtain ⟨c1, ts1⟩ := p
                      rw [hav] at hv
                      dsimp only at hv
                      obtain ⟨_, hpos1, htok1⟩ := jstok_accept_value_rollback strict c ts c1 ts1 hav
                      cases hst : jstok_parse_string_token json len maxT c1 ts1 with
                      | err e2 c2 ts2 =>
                        rw [hst] at hv
                        dsimp only at hv
                        by_cases hc2 : e2.code = JSTOK_ERROR_PART
                        · rw [if_pos hc2] at hv; simp at hv
                        · rw [if_neg hc2] at hv; simp at hv
                      | ok r =>
                        obtain ⟨i, c2, ts2⟩ := r
                        rw [hst] at hv
                        simp only [Step.next.injEq] at hv
                        obtain ⟨ha, hb⟩ := jstok_string_token_ok _ _ _ _ _ _ _ _ hst
                        rw [← hv.1]
                        omega
                  cases hhd : c.stack.head? with
                  | none =>
                    rw [hhd] at h
                    dsimp only at h
                    exact hval h
                  | some fr =>
                    rw [hhd] at h
                    dsimp only at h
                    by_cases h11 : fr.type = JType.OBJECT ∧
                        (fr.st = JSt.OBJ_KEY_OR_END ∨ fr.st = JSt.OBJ_KEY)
                    · rw [if_pos h11] at h
                      cases hst : jstok_parse_string_token json len maxT c ts with
                      | err e2 c2 ts2 => rw [hst] at h; simp at h
                      | ok r =>
                        obtain ⟨i, c1, ts1⟩ := r
                        rw [hst] at h
                        dsimp only at h
                        cases hak : jstok_accept_key c1 with
                        | error e2 => rw [hak] at h; simp at h
                        | ok c2 =>
                          rw [hak] at h
                          simp only [Step.next.injEq] at h
                          obtain ⟨ha, hb⟩ := jstok_string_token_ok _ _ _ _ _ _ _ _ hst
                          obtain ⟨hk1, hk2⟩ := jstok_accept_key_ok c1 c2 hak
                          rw [← h.1]
                          omega
                    · rw [if_neg h11] at h
                      exact hval h
                · rw [if_neg h10] at h
                  unfold jstok_step_value_prim at h
                  cases hav : jstok_accept_value strict c ts with
                  | error e => rw [hav] at h; simp at h
                  | ok p =>
                    obtain ⟨c1, ts1⟩ := p
                    rw [hav] at h
                    dsimp only at h
                    obtain ⟨_, hpos1, htok1⟩ := jstok_accept_value_rollback strict c ts c1 ts1 hav
                    cases hst : jstok_parse_primitive_token strict json len maxT c1 ts1 with
                    | err e2 c2 ts2 =>
                      rw [hst] at h
                      dsimp only at h
                      by_cases hc2 : e2.code = JSTOK_ERROR_PART
                      · rw [if_pos hc2] at h; simp at h
                      · rw [if_neg hc2] at h; simp at h
                    | ok r =>
                      obtain ⟨i, c2, ts2⟩ := r
                      rw [hst] at h
                      simp only [Step.next.injEq] at h
                      obtain ⟨ha, hb⟩ := jstok_primitive_token_ok _ _ _ _ _ _ _ _ _ hst
                      rw [← h.1]
                      omega

/- ------------------------------------------------------------------ -/
/- Extension: successful scans are stable under a longer buffer        -/
/- ------------------------------------------------------------------ -/

theorem jstok_str_scan_ext (json : List Char) :
    ∀ (r1 r2 pos q : Nat), jstok_str_scan json pos r1 = .closedAt q → r1 ≤ r2 →
      jstok_str_scan json pos r2 = .closedAt q := by
  intro r1
  induction r1 using Nat.strong_induction_on with
  | _ r1 ih =>
    intro r2 pos q h hle
    match r1, h with
    | remp + 1, h =>
      rw [jstok_str_scan.eq_def] at h
      dsimp only at h
      match r2, hle with
      | remp2 + 1, hle =>
        rw [jstok_str_scan.eq_def]
        dsimp only
        by_cases h1 : (getc json pos).toNat < 0x20
        · rw [if_pos h1] at h; simp at h
        · rw [if_neg h1] at h
          rw [if_neg h1]
          by_cases h2 : getc json pos = '"'
          · rw [if_pos h2] at h
            rw [if_pos h2]
            exact h
          · rw [if_neg h2] at h
            rw [if_neg h2]
            by_cases h3 : getc json pos = '\\'
            · rw [if_pos h3] at h
              rw [if_pos h3]
              match remp, h with
              | remq + 1, h =>
                dsimp only at h
                match remp2, (by omega : remq + 1 ≤ remp2) with
                | remq2 + 1, hle2 =>
                  dsimp only
                  by_cases h4 : (getc json (pos + 1) = '"' || getc json (pos + 1) = '\\' ||
                      getc json (pos + 1) = '/' || getc json (pos + 1) = 'b' ||
                      getc json (pos + 1) = 'f' || getc json (pos + 1) = 'n' ||
                      getc json (pos + 1) = 'r' || getc json (pos + 1) = 't') = true
                  · rw [if_pos h4] at h
                    rw [if_pos h4]
                    exact ih remq (by omega) remq2 (pos + 2) q h (by omega)
                  · rw [if_neg h4] at h
                    rw [if_neg h4]
                    by_cases h5 : getc json (pos + 1) = 'u'
                    · rw [if_pos h5] at h
                      rw [if_pos h5]
                      match remq, h with
                      | remr + 1, h =>
                        dsimp only at h
                        match remq2, (by omega : remr + 1 ≤ remq2) with
                        | remr2 + 1, hle3 =>
                          dsimp only
                          by_cases h6 : jstok_is_hex (getc json (pos + 2)) = true
                          · rw [if_pos h6] at h
                            rw [if_pos h6]
                            match remr, h with
                            | rems + 1, h =>
                              dsimp only at h
                              match remr2, (by omega : rems + 1 ≤ remr2) with
                              | rems2 + 1, hle4 =>
                                dsimp only
                                by_cases h7 : jstok_is_hex (getc json (pos + 3)) = true
                                · rw [if_pos h7] at h
                                  rw [if_pos h7]
                                  match rems, h with
                                  | remt + 1, h =>
                                    dsimp only at h
                                    match rems2, (by omega : remt + 1 ≤ rems2) with
                                    | remt2 + 1, hle5 =>
                                      dsimp only
                                      by_cases h8 : jstok_is_hex (getc json (pos + 4)) = true
                                      · rw [if_pos h8] at h
                                        rw [if_pos h8]
                                        match remt, h with
                                        | remu + 1, h =>
                                          dsimp only at h
                                          match remt2, (by omega : remu + 1 ≤ remt2) with
                                          | remu2 + 1, hle6 =>
                                            dsimp only
                                            by_cases h9 : jstok_is_hex (getc json (pos + 5)) = true
                                            · rw [if_pos h9] at h
                                              rw [if_pos h9]
                                              exact ih remu (by omega) remu2 (pos + 6) q h (by omega)
                                            · rw [if_neg h9] at h; simp at h
                                      · rw [if_neg h8] at h; simp at h
                                · rw [if_neg h7] at h; simp at h
                          · rw [if_neg h6] at h; simp at h
                    · rw [if_neg h5] at h; simp at h
            · rw [if_neg h3] at h
              rw [if_neg h3]
              exact ih remp (by omega) remp2 (pos + 1) q h (by omega)

theorem jstok_digits_end_le (json : List Char) :
    ∀ (r i : Nat), jstok_digits_end json i r ≤ i + r := by
  intro r
  induction r with
  | zero => intro i; rw [jstok_digits_end]; omega
  | succ r ih =>
    intro i
    rw [jstok_digits_end]
    by_cases h : jstok_is_digit (getc json i) = true
    · rw [if_pos h]
      have := ih (i + 1)
      omega
    · rw [if_neg h]; omega

theorem jstok_digits_end_ext (json : List Char) :
    ∀ (r1 r2 i e : Nat), jstok_digits_end json i r1 = e → e < i + r1 → r1 ≤ r2 →
      jstok_digits_end json i r2 = e := by
  intro r1
  induction r1 with
  | zero => intro r2 i e h hlt; rw [jstok_digits_end] at h; omega
  | succ r1 ih =>
    intro r2 i e h hlt hle
    rw [jstok_digits_end] at h
    match r2, (by omega : 1 ≤ r2) with
    | r2 + 1, _ =>
      rw [jstok_digits_end]
      by_cases hd : jstok_is_digit (getc json i) = true
      · rw [if_pos hd] at h
        rw [if_pos hd]
        exact ih r2 (i + 1) e h (by omega) (by omega)
      · rw [if_neg hd] at h
        rw [if_neg hd]
        exact h

theorem jstok_num_end_ok_lt (json : List Char) (len i e : Nat)
    (h : jstok_num_end json len i = .ok e) : i < len ∧ e = i := by
  unfold jstok_num_end at h
  by_cases h1 : len ≤ i
  · rw [if_pos h1] at h; simp at h
  · rw [if_neg h1] at h
    by_cases h2 : ¬ jstok_is_delim (getc json i) = true
    · rw [if_pos h2] at h; simp at h
    · rw [if_neg h2] at h
      simp only [Except.ok.injEq] at h
      exact ⟨by omega, h.symm⟩

theorem jstok_num_end_ext (json : List Char) (k len i e : Nat) (hk : k ≤ len)
    (h : jstok_num_end json k i = .ok e) : jstok_num_end json len i = .ok e := by
  obtain ⟨hlt, he⟩ := jstok_num_end_ok_lt json k i e h
  unfold jstok_num_end at h ⊢
  rw [if_neg (by omega)] at h
  rw [if_neg (by omega)]
  by_cases h2 : ¬ jstok_is_delim (getc json i) = true
  · rw [if_pos h2] at h; simp at h
  · rw [if_neg h2] at h
    rw [if_neg h2]
    exact h

theorem jstok_num_exp_ext (json : List Char) (k len i e : Nat) (hk : k ≤ len)
    (h : jstok_num_exp json k i = .ok e) : jstok_num_exp json len i = .ok e := by
  unfold jstok_num_exp at h ⊢
  by_cases h1 : i < k ∧ (getc json i = 'e' ∨ getc json i = 'E')
  · rw [if_pos h1] at h
    rw [if_pos ⟨by omega, h1.2⟩]
    dsimp only at h ⊢
    by_cases h2 : k ≤ i + 1
    · rw [if_pos h2] at h; simp at h
    · rw [if_neg h2] at h
      rw [if_neg (by omega)]
      by_cases h3 : getc json (i + 1) = '+' ∨ getc json (i + 1) = '-'
      · rw [if_pos h3] at h
        rw [if_pos h3]
        by_cases h4 : k ≤ i + 1 + 1
        · rw [if_pos h4] at h; simp at h
        · rw [if_neg h4] at h
          rw [if_neg (by omega)]
          by_cases h5 : ¬ jstok_is_digit (getc json (i + 1 + 1)) = true
          · rw [if_pos h5] at h; simp at h
          · rw [if_neg h5] at h
            rw [if_neg h5]
            obtain ⟨hlt, heq⟩ := jstok_num_end_ok_lt json k _ _ h
            have hde : jstok_digits_end json (i + 1 + 1) (len - (i + 1 + 1)) =
                jstok_digits_end json (i + 1 + 1) (k - (i + 1 + 1)) := by
              apply jstok_digits_end_ext json (k - (i + 1 + 1)) (len - (i + 1 + 1)) _ _ rfl
                (by omega) (by omega)
            rw [hde]
            exact jstok_num_end_ext json k len _ _ hk h
      · rw [if_neg h3] at h
        rw [if_neg h3]
        by_cases h4 : k ≤ i + 1
        · rw [if_pos h4] at h; simp at h
        · rw [if_neg h4] at h
          rw [if_neg (by omega)]
          by_cases h5 : ¬ jstok_is_digit (getc json (i + 1)) = true
          · rw [if_pos h5] at h; simp at h
          · rw [if_neg h5] at h
            rw [if_neg h5]
            obtain ⟨hlt, heq⟩ := jstok_num_end_ok_lt json k _ _ h
            have hde : jstok_digits_end json (i + 1) (len - (i + 1)) =
                jstok_digits_end json (i + 1) (k - (i + 1)) := by
              apply jstok_digits_end_ext json (k - (i + 1)) (len - (i + 1)) _ _ rfl
                (by omega) (by omega)
            rw [hde]
            exact jstok_num_end_ext json k len _ _ hk h
  · rw [if_neg h1] at h
    obtain ⟨hlt, heq⟩ := jstok_num_end_ok_lt json k _ _ h
    rw [if_neg (by
      intro hcon
      exact h1 ⟨by omega, hcon.2⟩)]
    exact jstok_num_end_ext json k len _ _ hk h

theorem jstok_digits_end_ext2 (json : List Char) (i k len : Nat) (hk : k ≤ len)
    (hlt : jstok_digits_end json i (k - i) < k) :
    jstok_digits_end json i (len - i) = jstok_digits_end json i (k - i) := by
  by_cases hik : i ≤ k
  · exact jstok_digits_end_ext json (k - i) (len - i) i _ rfl (by omega) (by omega)
  · rw [show k - i = 0 from by omega] at hlt
    rw [jstok_digits_end] at hlt
    omega

theorem jstok_num_exp_ok_lt (json : List Char) (k i e : Nat)
    (h : jstok_num_exp json k i = .ok e) : i < k := by
  unfold jstok_num_exp at h
  by_cases h1 : i < k ∧ (getc json i = 'e' ∨ getc json i = 'E')
  · exact h1.1
  · rw [if_neg h1] at h
    exact (jstok_num_end_ok_lt json k i e h).1

theorem jstok_num_frac_ok_lt (json : List Char) (k i e : Nat)
    (h : jstok_num_frac json k i = .ok e) : i < k := by
  unfold jstok_num_frac at h
  by_cases h1 : i < k ∧ getc json i = '.'
  · exact h1.1
  · rw [if_neg h1] at h
    exact jstok_num_exp_ok_lt json k i e h

theorem jstok_num_frac_ext (json : List Char) (k len i e : Nat) (hk : k ≤ len)
    (h : jstok_num_frac json k i = .ok e) : jstok_num_frac json len i = .ok e := by
  unfold jstok_num_frac at h ⊢
  by_cases h1 : i < k ∧ getc json i = '.'
  · rw [if_pos h1] at h
    rw [if_pos ⟨by omega, h1.2⟩]
    dsimp only at h ⊢
    by_cases h2 : k ≤ i + 1
    · rw [if_pos h2] at h; simp at h
    · rw [if_neg h2] at h
      rw [if_neg (by omega)]
      by_cases h3 : ¬ jstok_is_digit (getc json (i + 1)) = true
      · rw [if_pos h3] at h; simp at h
      · rw [if_neg h3] at h
        rw [if_neg h3]
        have hlt := jstok_num_exp_ok_lt json k _ _ h
        rw [jstok_digits_end_ext2 json (i + 1) k len hk hlt]
        exact jstok_num_exp_ext json k len _ _ hk h
  · rw [if_neg h1] at h
    have hlt := jstok_num_exp_ok_lt json k _ _ h
    rw [if_neg (fun hcon => h1 ⟨by omega, hcon.2⟩)]
    exact jstok_num_exp_ext json k len _ _ hk h

theorem jstok_num_int_ext (strict : Bool) (json : List Char) (k len i e : Nat) (hk : k ≤ len)
    (h : jstok_num_int strict json k i = .ok e) : jstok_num_int strict json len i = .ok e := by
  unfold jstok_num_int at h ⊢
  by_cases h0 : getc json i = '0'
  · rw [if_pos h0] at h
    rw [if_pos h0]
    dsimp only at h ⊢
    by_cases h1 : i + 1 < k ∧ jstok_is_digit (getc json (i + 1)) = true ∧ strict = true
    · rw [if_pos h1] at h; simp at h
    · rw [if_neg h1] at h
      have hlt := jstok_num_frac_ok_lt json k _ _ h
      rw [if_neg (fun hcon => h1 ⟨by omega, hcon.2⟩)]
      exact jstok_num_frac_ext json k len _ _ hk h
  · rw [if_neg h0] at h
    rw [if_neg h0]
    by_cases h2 : '1' ≤ getc json i ∧ getc json i ≤ '9'
    · rw [if_pos h2] at h
      rw [if_pos h2]
      have hlt := jstok_num_frac_ok_lt json k _ _ h
      rw [jstok_digits_end_ext2 json (i + 1) k len hk hlt]
      exact jstok_num_frac_ext json k len _ _ hk h
    · rw [if_neg h2] at h; simp at h

theorem jstok_parse_number_span_ext (strict : Bool) (json : List Char) (k len pos e : Nat)
    (hk : k ≤ len) (h : jstok_parse_number_span strict json k pos = .ok e) :
    jstok_parse_number_span strict json len pos = .ok e := by
  unfold jstok_parse_number_span at h ⊢
  by_cases h0 : k ≤ pos
  · rw [if_pos h0] at h; simp at h
  · rw [if_neg h0] at h
    rw [if_neg (by omega)]
    by_cases h1 : getc json pos = '-'
    · rw [if_pos h1] at h
      rw [if_pos h1]
      by_cases h2 : k ≤ pos + 1
      · rw [if_pos h2] at h; simp at h
      · rw [if_neg h2] at h
        rw [if_neg (by omega)]
        exact jstok_num_int_ext strict json k len _ _ hk h
    · rw [if_neg h1] at h
      rw [if_neg h1]
      exact jstok_num_int_ext strict json k len _ _ hk h

theorem jstok_lit_scan_ext (json : List Char) (k len : Nat) (hk : k ≤ len) :
    ∀ (lit : List Char) (j : Nat), jstok_lit_scan json k j lit = .ok →
      jstok_lit_scan json len j lit = .ok := by
  intro lit
  induction lit with
  | nil => intro j _; rw [jstok_lit_scan]
  | cons ch rest ih =>
    intro j h
    rw [jstok_lit_scan] at h
    rw [jstok_lit_scan]
    by_cases h1 : k ≤ j
    · rw [if_pos h1] at h; simp at h
    · rw [if_neg h1] at h
      rw [if_neg (by omega)]
      by_cases h2 : getc json j ≠ ch
      · rw [if_pos h2] at h; simp at h
      · rw [if_neg h2] at h
        rw [if_neg h2]
        exact ih (j + 1) h

theorem jstok_parse_literal_ext (json : List Char) (k len : Nat) (c : JCore) (lit : List Char)
    (n : Nat) (hk : k ≤ len) (h : jstok_parse_literal json k c lit = .ok n) :
    jstok_parse_literal json len c lit = .ok n ∨
    jstok_parse_literal json len c lit = .error ⟨JSTOK_ERROR_INVAL, (c.pos + lit.length : Nat)⟩ := by
  unfold jstok_parse_literal at h ⊢
  cases hscan : jstok_lit_scan json k c.pos lit with
  | part j => rw [hscan] at h; simp at h
  | bad j => rw [hscan] at h; simp at h
  | ok =>
    rw [hscan] at h
    dsimp only at h
    rw [jstok_lit_scan_ext json k len hk lit c.pos hscan]
    dsimp only
    by_cases hq : c.pos + lit.length < len ∧ ¬ jstok_is_delim (getc json (c.pos + lit.length)) = true
    · rw [if_pos hq]
      right
      rfl
    · rw [if_neg hq]
      left
      by_cases hp : c.pos + lit.length < k ∧ ¬ jstok_is_delim (getc json (c.pos + lit.length)) = true
      · rw [if_pos hp] at h; simp at h
      · rw [if_neg hp] at h
        exact h

theorem jstok_string_token_ext (json : List Char) (k len : Nat) (maxT : Int) (c : JCore)
    (ts : Option (List JTok)) (r : Int × JCore × Option (List JTok)) (hk : k ≤ len)
    (h : jstok_parse_string_token json k maxT c ts = .ok r) :
    jstok_parse_string_token json len maxT c ts = .ok r := by
  unfold jstok_parse_string_token at h ⊢
  by_cases h1 : k ≤ c.pos ∨ getc json c.pos ≠ '"'
  · rw [if_pos h1] at h; simp at h
  · rw [if_neg h1] at h
    push_neg at h1
    rw [if_neg (by push_neg; exact ⟨by omega, h1.2⟩)]
    cases hscan : jstok_str_scan json (c.pos + 1) (k - (c.pos + 1)) with
    | closedAt q =>
      rw [hscan] at h
      rw [jstok_str_scan_ext json (k - (c.pos + 1)) (len - (c.pos + 1)) (c.pos + 1) q hscan
        (by omega)]
      exact h
    | badAt j => rw [hscan] at h; simp at h
    | needMore => rw [hscan] at h; simp at h

theorem jstok_primitive_token_ext (strict : Bool) (json : List Char) (k len : Nat) (maxT : Int)
    (c : JCore) (ts : Option (List JTok)) (r : Int × JCore × Option (List JTok)) (hk : k ≤ len)
    (h : jstok_parse_primitive_token strict json k maxT c ts = .ok r) :
    jstok_parse_primitive_token strict json len maxT c ts = .ok r ∨
    ∃ e2 c2 ts2, jstok_parse_primitive_token strict json len maxT c ts = .err e2 c2 ts2 ∧
      e2.code = JSTOK_ERROR_INVAL := by
  unfold jstok_parse_primitive_token at h ⊢
  by_cases h0 : k ≤ c.pos
  · rw [if_pos h0] at h; simp at h
  · rw [if_neg h0] at h
    rw [if_neg (by omega : ¬ len ≤ c.pos)]
    by_cases h1 : getc json c.pos = 't'
    · rw [if_pos h1] at h
      rw [if_pos h1]
      cases hl : jstok_parse_literal json k c ("true".toList) with
      | error e2 => rw [hl] at h; simp at h
      | ok n =>
        rw [hl] at h
        dsimp only at h
        rcases jstok_parse_literal_ext json k len c _ n hk hl with hL | hR
        · rw [hL]
          dsimp only
          left
          exact h
        · rw [hR]
          dsimp only
          right
          exact ⟨_, _, _, rfl, rfl⟩
    · rw [if_neg h1] at h
      rw [if_neg h1]
      by_cases h2 : getc json c.pos = 'f'
      · rw [if_pos h2] at h
        rw [if_pos h2]
        cases hl : jstok_parse_literal json k c ("false".toList) with
        | error e2 => rw [hl] at h; simp at h
        | ok n =>
          rw [hl] at h
          dsimp only at h
          rcases jstok_parse_literal_ext json k len c _ n hk hl with hL | hR
          · rw [hL]
            dsimp only
            left
            exact h
          · rw [hR]
            dsimp only
            right
            exact ⟨_, _, _, rfl, rfl⟩
      · rw [if_neg h2] at h
        rw [if_neg h2]
        by_cases h3 : getc json c.pos = 'n'
        · rw [if_pos h3] at h
          rw [if_pos h3]
          cases hl : jstok_parse_literal json k c ("null".toList) with
          | error e2 => rw [hl] at h; simp at h
          | ok n =>
            rw [hl] at h
            dsimp only at h
            rcases jstok_parse_literal_ext json k len c _ n hk hl with hL | hR
            · rw [hL]
              dsimp only
              left
              exact h
            · rw [hR]
              dsimp only
              right
              exact ⟨_, _, _, rfl, rfl⟩
        · rw [if_neg h3] at h
          rw [if_neg h3]
          cases hn : jstok_parse_number_span strict json k c.pos with
          | error e2 => rw [hn] at h; simp at h
          | ok endp =>
            rw [hn] at h
            rw [jstok_parse_number_span_ext strict json k len c.pos endp hk hn]
            left
            exact h

theorem jstok_step_value_string_ext (strict : Bool) (json : List Char) (k len : Nat)
    (maxT : Int) (c : JCore) (ts : Option (List JTok)) (c' : JCore) (ts' : Option (List JTok))
    (hk : k ≤ len) (h : jstok_step_value_string strict json k maxT c ts = .next c' ts') :
    jstok_step_value_string strict json len maxT c ts = .next c' ts' := by
  unfold jstok_step_value_string at h ⊢
  cases hav : jstok_accept_value strict c ts with
  | error e => rw [hav] at h; simp at h
  | ok p =>
    obtain ⟨c1, ts1⟩ := p
    rw [hav] at h
    dsimp only at h ⊢
    cases hst : jstok_parse_string_token json k maxT c1 ts1 with
    | err e2 c2 ts2 =>
      rw [hst] at h
      dsimp only at h
      by_cases hc2 : e2.code = JSTOK_ERROR_PART
      · rw [if_pos hc2] at h; simp at h
      · rw [if_neg hc2] at h; simp at h
    | ok r =>
      rw [jstok_string_token_ext json k len maxT c1 ts1 r hk hst]
      rw [hst] at h
      obtain ⟨i, c2, ts2⟩ := r
      exact h

theorem jstok_step_value_prim_ext (strict : Bool) (json : List Char) (k len : Nat)
    (maxT : Int) (c : JCore) (ts : Option (List JTok)) (c' : JCore) (ts' : Option (List JTok))
    (hk : k ≤ len) (h : jstok_step_value_prim strict json k maxT c ts = .next c' ts') :
    jstok_step_value_prim strict json len maxT c ts = .next c' ts' ∨
    ∃ e2 c2 ts2, jstok_step_value_prim strict json len maxT c ts = .fail e2 c2 ts2 ∧
      e2.code = JSTOK_ERROR_INVAL := by
  unfold jstok_step_value_prim at h ⊢
  cases hav : jstok_accept_value strict c ts with
  | error e => rw [hav] at h; simp at h
  | ok p =>
    obtain ⟨c1, ts1⟩ := p
    rw [hav] at h
    dsimp only at h ⊢
    cases hst : jstok_parse_primitive_token strict json k maxT c1 ts1 with
    | err e2 c2 ts2 =>
      rw [hst] at h
      dsimp only at h
      by_cases hc2 : e2.code = JSTOK_ERROR_PART
      · rw [if_pos hc2] at h; simp at h
      · rw [if_neg hc2] at h; simp at h
    | ok r =>
      rcases jstok_primitive_token_ext strict json k len maxT c1 ts1 r hk hst with hL | ⟨e2, c2, ts2, hR, hcode⟩
      · rw [hL]
        rw [hst] at h
        obtain ⟨i, c3, ts3⟩ := r
        left
        exact h
      · rw [hR]
        dsimp only
        rw [if_neg (by rw [hcode]; decide)]
        right
        exact ⟨e2, c2, ts2, rfl, hcode⟩

/-- Running one step over a prefix length `k ≤ len`: a successful step either
behaves identically over the full length, or the full length rejects with
Invalid (the literal-at-end-of-prefix case). -/
theorem jstok_step_ext (strict : Bool) (json : List Char) (k len : Nat) (maxT : Int)
    (c : JCore) (ts : Option (List JTok)) (c' : JCore) (ts' : Option (List JTok))
    (hk : k ≤ len) (h : jstok_step strict json k maxT c ts = .next c' ts') :
    jstok_step strict json len maxT c ts = .next c' ts' ∨
    ∃ e2 c2 ts2, jstok_step strict json len maxT c ts = .fail e2 c2 ts2 ∧
      e2.code = JSTOK_ERROR_INVAL := by
  unfold jstok_step at h ⊢
  by_cases h1 : jstok_is_space (getc json c.pos) = true
  · rw [if_pos h1] at h ⊢
    left
    exact h
  · rw [if_neg h1] at h ⊢
    by_cases h2 : getc json c.pos = '{'
    · rw [if_pos h2] at h ⊢
      left
      exact h
    · rw [if_neg h2] at h ⊢
      by_cases h3 : getc json c.pos = '['
      · rw [if_pos h3] at h ⊢
        left
        exact h
      · rw [if_neg h3] at h ⊢
        by_cases h4 : getc json c.pos = '}'
        · rw [if_pos h4] at h ⊢
          left
          exact h
        · rw [if_neg h4] at h ⊢
          by_cases h5 : getc json c.pos = ']'
          · rw [if_pos h5] at h ⊢
            left
            exact h
          · rw [if_neg h5] at h ⊢
            by_cases h6 : getc json c.pos = ':'
            · rw [if_pos h6] at h ⊢
              left
              exact h
            · rw [if_neg h6] at h ⊢
              by_cases h7 : getc json c.pos = ','
              · rw [if_pos h7] at h ⊢
                left
                exact h
              · rw [if_neg h7] at h ⊢
                by_cases h8 : getc json c.pos = '"'
                · rw [if_pos h8] at h ⊢
                  cases hhd : c.stack.head? with
                  | none =>
                    rw [hhd] at h
                    dsimp only at h ⊢
                    left
                    exact jstok_step_value_string_ext strict json k len maxT c ts c' ts' hk h
                  | some fr =>
                    rw [hhd] at h
                    dsimp only at h ⊢
                    by_cases h9 : fr.type = JType.OBJECT ∧ (fr.st = JSt.OBJ_KEY_OR_END ∨ fr.st = JSt.OBJ_KEY)
                    · rw [if_pos h9] at h ⊢
                      cases hst : jstok_parse_string_token json k maxT c ts with
                      | err e2 c2 ts2 => rw [hst] at h; simp at h
                      | ok r =>
                        rw [jstok_string_token_ext json k len maxT c ts r hk hst]
                        rw [hst] at h
                        obtain ⟨i, c2, ts2⟩ := r
                        left
                        exact h
                    · rw [if_neg h9] at h ⊢
                      left
                      exact jstok_step_value_string_ext strict json k len maxT c ts c' ts' hk h
                · rw [if_neg h8] at h ⊢
                  exact jstok_step_value_prim_ext strict json k len maxT c ts c' ts' hk h

/-- The end-of-input handling never alters the core state or the tokens. -/
theorem jstok_end_check_core (strict : Bool) (c : JCore) (ts : Option (List JTok)) :
    (jstok_end_check strict c ts).core = c ∧ (jstok_end_check strict c ts).ts = ts := by
  unfold jstok_end_check
  by_cases h1 : strict = true ∧ c.stack.length = 0 ∧ c.root_done = false
  · rw [if_pos h1]
    exact ⟨rfl, rfl⟩
  · rw [if_neg h1]
    by_cases h2 : c.stack.length ≠ 0
    · rw [if_pos h2]
      exact ⟨rfl, rfl⟩
    · rw [if_neg h2]
      exact ⟨rfl, rfl⟩

/-- Any two sufficient fuels give the same result (fuel is an artifact of the
embedding; the C loop is bounded by the strict progress of `pos`). -/
theorem jstok_loop_fuel_irrel (strict : Bool) (json : List Char) (len : Nat) (maxT : Int) :
    ∀ (f1 f2 : Nat) (c : JCore) (ts : Option (List JTok)), 1 ≤ f1 → 1 ≤ f2 →
      len + 1 - c.pos ≤ f1 → len + 1 - c.pos ≤ f2 →
      jstok_loop strict json len maxT f1 c ts = jstok_loop strict json len maxT f2 c ts := by
  intro f1
  induction f1 with
  | zero => intro f2 c ts h1; omega
  | succ f1 ih =>
    intro f2 c ts hf1 hf2 hb1 hb2
    match f2, hf2 with
    | f2 + 1, _ =>
      rw [jstok_loop, jstok_loop]
      by_cases hp : c.pos < len
      · rw [if_pos hp, if_pos hp]
        cases hstep : jstok_step strict json len maxT c ts with
        | fail e c2 ts2 => rfl
        | next c2 ts2 =>
          obtain ⟨hlt, _⟩ := jstok_step_next_incr strict json len maxT c ts c2 ts2 hstep
          dsimp only
          by_cases hc2 : c2.pos ≤ len
          · exact ih f2 c2 ts2 (by omega) (by omega) (by omega) (by omega)
          · match f1, (by omega : 1 ≤ f1), f2, (by omega : 1 ≤ f2) with
            | f1 + 1, _, f2 + 1, _ =>
              rw [jstok_loop, jstok_loop]
              rw [if_neg (by omega : ¬ c2.pos < len), if_neg (by omega : ¬ c2.pos < len)]
      · rw [if_neg hp, if_neg hp]

/-- Resume equivalence: if parsing a prefix of length `k` stops with Partial
in core state `c₁`, and the one-shot parse of the full input succeeds, then
resuming the loop from `c₁` over the full input gives exactly the one-shot
result. -/
theorem jstok_loop_resume (strict : Bool) (json : List Char) (k len : Nat) (maxT : Int)
    (hk : k ≤ len) :
    ∀ (fk : Nat) (c : JCore) (ts : Option (List JTok)) (fl : Nat),
      (jstok_loop strict json k maxT fk c ts).ret = JSTOK_ERROR_PART →
      1 ≤ fl → len + 1 - c.pos ≤ fl →
      0 ≤ (jstok_loop strict json len maxT fl c ts).ret →
      ∀ (fl2 : Nat), 1 ≤ fl2 →
        len + 1 - (jstok_loop strict json k maxT fk c ts).core.pos ≤ fl2 →
        jstok_loop strict json len maxT fl2 (jstok_loop strict json k maxT fk c ts).core
            (jstok_loop strict json k maxT fk c ts).ts
          = jstok_loop strict json len maxT fl c ts := by
  intro fk
  induction fk with
  | zero =>
    intro c ts fl hret
    rw [jstok_loop] at hret
    dsimp only at hret
    exact absurd hret (by decide)
  | succ fk ih =>
    intro c ts fl hret hfl1 hflb hge fl2 hfl21 hfl2b
    by_cases hp : c.pos < k
    · cases hstep : jstok_step strict json k maxT c ts with
      | fail e c2 ts2 =>
        have hL : jstok_loop strict json k maxT (fk + 1) c ts =
            ⟨e.code, (e.epos : Int), c2, ts2⟩ := by
          rw [jstok_loop]
          rw [if_pos hp, hstep]
        rw [hL] at hret hfl2b ⊢
        dsimp only at hret hfl2b ⊢
        obtain ⟨hc2, hts2⟩ := jstok_step_part strict json k maxT c ts e c2 ts2 hstep hret
        rw [hc2] at hfl2b ⊢
        rw [hts2]
        exact jstok_loop_fuel_irrel strict json len maxT fl2 fl c ts hfl21 hfl1 hfl2b hflb
      | next c2 ts2 =>
        have hL : jstok_loop strict json k maxT (fk + 1) c ts =
            jstok_loop strict json k maxT fk c2 ts2 := by
          rw [jstok_loop]
          rw [if_pos hp, hstep]
        rw [hL] at hret hfl2b ⊢
        have hp' : c.pos < len := by omega
        obtain ⟨hlt, _⟩ := jstok_step_next_incr strict json k maxT c ts c2 ts2 hstep
        rcases jstok_step_ext strict json k len maxT c ts c2 ts2 hk hstep with
          hN | ⟨e2, c2', ts2', hF, hcode⟩
        · match fl, hfl1 with
          | flm + 1, _ =>
            have hLlen : jstok_loop strict json len maxT (flm + 1) c ts =
                jstok_loop strict json len maxT flm c2 ts2 := by
              rw [jstok_loop]
              rw [if_pos hp', hN]
            rw [hLlen] at hge ⊢
            exact ih c2 ts2 flm hret (by omega) (by omega) hge fl2 hfl21 hfl2b
        · exfalso
          match fl, hfl1 with
          | flm + 1, _ =>
            rw [jstok_loop] at hge
            rw [if_pos hp', hF] at hge
            dsimp only at hge
            rw [hcode] at hge
            exact absurd hge (by decide)
    · have hL : jstok_loop strict json k maxT (fk + 1) c ts = jstok_end_check strict c ts := by
        rw [jstok_loop]
        rw [if_neg hp]
      rw [hL] at hret hfl2b ⊢
      obtain ⟨hc, hts⟩ := jstok_end_check_core strict c ts
      rw [hc] at hfl2b ⊢
      rw [hts]
      exact jstok_loop_fuel_irrel strict json len maxT fl2 fl c ts hfl21 hfl1 hfl2b hflb

/-- C1: Incremental-resume equivalence.  If jstok_parse on a freshly
initialized parser returns Partial for a prefix of length `k` of the buffer
(leaving parser `p1` and token array `ts1`), and the one-shot parse of the
full buffer on a freshly initialized parser succeeds, then calling
jstok_parse again on `p1` with the same buffer and the full length returns
exactly the one-shot result: same return value (the token count), same final
parser state, and the same (type, start, end, size) for every token. -/
theorem c1_incremental_resume (strict : Bool) (json : List Char) (k : Nat) (maxT : Int)
    (ts : Option (List JTok)) (p1 : JParser) (ts1 : Option (List JTok))
    (hk : k ≤ json.length)
    (hpre : (jstok_parse strict (some jstok_init) (some json) (k : Int) ts maxT).1
      = JSTOK_ERROR_PART)
    (hout : (jstok_parse strict (some jstok_init) (some json) (k : Int) ts maxT).2
      = (some p1, ts1))
    (hfull : 0 ≤ (jstok_parse strict (some jstok_init) (some json) (json.length : Int) ts maxT).1) :
    jstok_parse strict (some p1) (some json) (json.length : Int) ts1 maxT
      = jstok_parse strict (some jstok_init) (some json) (json.length : Int) ts maxT := by
  simp only [jstok_parse] at hpre hout hfull ⊢
  rw [if_neg (by omega : ¬ (k : Int) < 0)] at hpre hout
  rw [if_neg (by omega : ¬ (json.length : Int) < 0)] at hfull ⊢
  simp only [Int.toNat_natCast] at hpre hout hfull ⊢
  simp only [Prod.mk.injEq, Option.some.injEq] at hout
  obtain ⟨hp1, hts1⟩ := hout
  have hM := jstok_loop_resume strict json k json.length maxT hk (k + 1) jstok_init.core ts
    (json.length + 1) hpre (by omega) (Nat.sub_le _ _) hfull (json.length + 1) (by omega)
    (Nat.sub_le _ _)
  rw [← hp1, ← hts1]
  have hcore : (⟨(jstok_loop strict json k maxT (k + 1) jstok_init.core ts).core.pos,
      (jstok_loop strict json k maxT (k + 1) jstok_init.core ts).core.toknext,
      (jstok_loop strict json k maxT (k + 1) jstok_init.core ts).core.stack,
      (jstok_loop strict json k maxT (k + 1) jstok_init.core ts).core.root_done,
      (jstok_loop strict json k maxT (k + 1) jstok_init.core ts).epos,
      if (jstok_loop strict json k maxT (k + 1) jstok_init.core ts).ret < 0 then
        (jstok_loop strict json k maxT (k + 1) jstok_init.core ts).ret else 0⟩ : JParser).core
      = (jstok_loop strict json k maxT (k + 1) jstok_init.core ts).core := rfl
  rw [hcore, hM]
  rw [if_neg (by omega : ¬ (json.length : Int) < 0)]

theorem c1_incremental_resume_witness :
    0 ≤ (jstok_parse true (some jstok_init) (some "[1,2]".toList) ("[1,2]".toList.length : Int)
        (some (List.replicate 8 defJTok)) 8).1 ∧
    jstok_parse true (some ⟨3, 2, [⟨.ARRAY, .ARR_VALUE, 0⟩], true, 3, -3⟩) (some "[1,2]".toList)
        ("[1,2]".toList.length : Int)
        (some ([(⟨.ARRAY, 0, -1, 1⟩ : JTok), ⟨.PRIMITIVE, 1, 2, 0⟩] ++ List.replicate 6 defJTok)) 8
      = jstok_parse true (some jstok_init) (some "[1,2]".toList) ("[1,2]".toList.length : Int)
        (some (List.replicate 8 defJTok)) 8 :=
  ⟨by decide,
   c1_incremental_resume true ("[1,2]".toList) 3 8 (some (List.replicate 8 defJTok))
     ⟨3, 2, [⟨.ARRAY, .ARR_VALUE, 0⟩], true, 3, -3⟩
     (some ([(⟨.ARRAY, 0, -1, 1⟩ : JTok), ⟨.PRIMITIVE, 1, 2, 0⟩] ++ List.replicate 6 defJTok))
     (by decide) (by decide) (by decide) (by decide)⟩

/- ------------------------------------------------------------------ -/
/- Count-only mode simulation (C3)                                     -/
/- ------------------------------------------------------------------ -/

theorem jstok_inc_none (c : JCore) : jstok_inc_container_size c none = none := by
  unfold jstok_inc_container_size
  cases h : c.stack.head? with
  | none => rfl
  | some fr => rfl

theorem jstok_accept_value_erase (strict : Bool) (c : JCore) (ts : Option (List JTok)) :
    jstok_accept_value strict (eraseCore c) none =
      match jstok_accept_value strict c ts with
      | .error e => .error e
      | .ok (c1, _) => .ok (eraseCore c1, none) := by
  unfold jstok_accept_value
  cases hs : c.stack with
  | nil =>
    have he : (eraseCore c).stack = [] := by simp [eraseCore, hs]
    rw [he]
    dsimp only
    have hrd : (eraseCore c).root_done = c.root_done := rfl
    rw [hrd]
    by_cases h1 : (strict && c.root_done) = true
    · rw [if_pos h1, if_pos h1]
      have hp : (eraseCore c).pos = c.pos := rfl
      rw [hp]
    · rw [if_neg h1, if_neg h1]
      rfl
  | cons fr rest =>
    have he : (eraseCore c).stack = eraseFrame fr :: rest.map eraseFrame := by
      simp [eraseCore, hs]
    rw [he]
    dsimp only
    have hty : (eraseFrame fr).type = fr.type := rfl
    have hst : (eraseFrame fr).st = fr.st := rfl
    have hp : (eraseCore c).pos = c.pos := rfl
    rw [hty, hst, hp]
    by_cases h1 : fr.type = JType.ARRAY
    · rw [if_pos h1, if_pos h1]
      by_cases h2 : fr.st = JSt.ARR_VALUE_OR_END ∨ fr.st = JSt.ARR_VALUE
      · rw [if_pos h2, if_pos h2]
        rw [jstok_inc_none]
        simp [eraseCore, eraseFrame, hs]
      · rw [if_neg h2, if_neg h2]
    · rw [if_neg h1, if_neg h1]
      by_cases h3 : fr.type = JType.OBJECT
      · rw [if_pos h3, if_pos h3]
        by_cases h4 : fr.st = JSt.OBJ_VALUE
        · rw [if_pos h4, if_pos h4]
          rw [jstok_inc_none]
          simp [eraseCore, eraseFrame, hs]
        · rw [if_neg h4, if_neg h4]
      · rw [if_neg h3, if_neg h3]

theorem jstok_new_token_erase (c : JCore) (ts : Option (List JTok)) (maxT : Int)
    (ty : JType) (s e : Int) (hm : (c.toknext : Int) < maxT) :
    jstok_new_token (eraseCore c) none maxT ty s e =
      match jstok_new_token c ts maxT ty s e with
      | .error e2 => .error e2
      | .ok (i, c1, _) => .ok (i, eraseCore c1, none) := by
  unfold jstok_new_token
  cases ts with
  | none => rfl
  | some l =>
    dsimp only
    rw [if_neg (by omega : ¬ maxT ≤ (c.toknext : Int))]
    rfl

theorem jstok_push_erase (c : JCore) (ty : JType) (st : JSt) (tok : Int) :
    jstok_push (eraseCore c) ty st (-1) =
      match jstok_push c ty st tok with
      | .error e => .error e
      | .ok c1 => .ok (eraseCore c1) := by
  unfold jstok_push
  have hl : (eraseCore c).stack.length = c.stack.length := by
    simp [eraseCore]
  rw [hl]
  by_cases h1 : JSTOK_MAX_DEPTH ≤ c.stack.length
  · rw [if_pos h1, if_pos h1]
    have hp : (eraseCore c).pos = c.pos := rfl
    rw [hp]
  · rw [if_neg h1, if_neg h1]
    simp only [eraseCore, eraseFrame]
    simp
    rfl

theorem jstok_accept_key_erase (c : JCore) :
    jstok_accept_key (eraseCore c) =
      match jstok_accept_key c with
      | .error e => .error e
      | .ok c1 => .ok (eraseCore c1) := by
  unfold jstok_accept_key
  cases hs : c.stack with
  | nil =>
    have he : (eraseCore c).stack = [] := by simp [eraseCore, hs]
    rw [he]
    rfl
  | cons fr rest =>
    have he : (eraseCore c).stack = eraseFrame fr :: rest.map eraseFrame := by
      simp [eraseCore, hs]
    rw [he]
    dsimp only
    have hty : (eraseFrame fr).type = fr.type := rfl
    have hst : (eraseFrame fr).st = fr.st := rfl
    have hp : (eraseCore c).pos = c.pos := rfl
    rw [hty, hst, hp]
    by_cases h1 : fr.type = JType.OBJECT ∧ (fr.st = JSt.OBJ_KEY_OR_END ∨ fr.st = JSt.OBJ_KEY)
    · rw [if_pos h1, if_pos h1]
      simp [eraseCore, eraseFrame, hs]
    · rw [if_neg h1, if_neg h1]

theorem jstok_start_container_erase (strict : Bool) (maxT : Int) (ty : JType) (c : JCore)
    (ts : Option (List JTok)) (hm : (c.toknext : Int) < maxT) :
    jstok_start_container strict maxT ty (eraseCore c) none =
      match jstok_start_container strict maxT ty c ts with
      | .err e c' _ => .err e (eraseCore c') none
      | .ok (i, c', _) => .ok (i, eraseCore c', none) := by
  unfold jstok_start_container
  rw [jstok_accept_value_erase strict c ts]
  cases hav : jstok_accept_value strict c ts with
  | error e => rfl
  | ok p =>
    obtain ⟨c1, ts1⟩ := p
    dsimp only
    obtain ⟨_, hpos1, htok1⟩ := jstok_accept_value_rollback strict c ts c1 ts1 hav
    have hp1 : ((eraseCore c1).pos : Int) = (c1.pos : Int) := rfl
    rw [hp1]
    rw [jstok_new_token_erase c1 ts1 maxT ty (c1.pos : Int) (-1) (by omega)]
    cases hnt : jstok_new_token c1 ts1 maxT ty (c1.pos : Int) (-1) with
    | error e => rfl
    | ok r =>
      obtain ⟨ti, c2, ts2⟩ := r
      dsimp only
      cases ts2 with
      | none =>
        dsimp only
        rw [jstok_push_erase c2 ty
          (if ty = JType.OBJECT then JSt.OBJ_KEY_OR_END else JSt.ARR_VALUE_OR_END) (-1)]
        cases hpu : jstok_push c2 ty
            (if ty = JType.OBJECT then JSt.OBJ_KEY_OR_END else JSt.ARR_VALUE_OR_END) (-1) with
        | error e => rfl
        | ok c3 => rfl
      | some l2 =>
        dsimp only
        rw [jstok_push_erase c2 ty
          (if ty = JType.OBJECT then JSt.OBJ_KEY_OR_END else JSt.ARR_VALUE_OR_END) ti]
        cases hpu : jstok_push c2 ty
            (if ty = JType.OBJECT then JSt.OBJ_KEY_OR_END else JSt.ARR_VALUE_OR_END) ti with
        | error e => rfl
        | ok c3 => rfl

theorem jstok_end_container_erase (ty : JType) (c : JCore) (ts : Option (List JTok)) :
    jstok_end_container ty (eraseCore c) none =
      match jstok_end_container ty c ts with
      | .err e c' _ => .err e (eraseCore c') none
      | .ok (i, c', _) => .ok (i, eraseCore c', none) := by
  unfold jstok_end_container
  cases hs : c.stack with
  | nil =>
    have he : (eraseCore c).stack = [] := by simp [eraseCore, hs]
    rw [he]
    rfl
  | cons fr rest =>
    have he : (eraseCore c).stack = eraseFrame fr :: rest.map eraseFrame := by
      simp [eraseCore, hs]
    rw [he]
    dsimp only
    have hty : (eraseFrame fr).type = fr.type := rfl
    have hst : (eraseFrame fr).st = fr.st := rfl
    have hp : (eraseCore c).pos = c.pos := rfl
    rw [hty, hst, hp]
    by_cases h1 : fr.type ≠ ty
    · rw [if_pos h1, if_pos h1]
    · rw [if_neg h1, if_neg h1]
      by_cases h2 : ¬ (if ty = JType.OBJECT then fr.st = JSt.OBJ_KEY_OR_END ∨ fr.st = JSt.OBJ_COMMA_OR_END
          else fr.st = JSt.ARR_VALUE_OR_END ∨ fr.st = JSt.ARR_COMMA_OR_END)
      · rw [if_pos h2, if_pos h2]
      · rw [if_neg h2, if_neg h2]
        dsimp only
        simp [jstok_pop, eraseCore, hs]

theorem jstok_rollback_erase (c : JCore) (sr : Bool) (c2 : JCore) (ts2 : Option (List JTok)) :
    jstok_rollback ((eraseCore c).stack.head?) sr (eraseCore c2) none =
      (eraseCore (jstok_rollback c.stack.head? sr c2 ts2).1, none) := by
  unfold jstok_rollback
  cases hs : c.stack with
  | nil =>
    rw [show (eraseCore c).stack.head? = (none : Option JFrame) from by simp [eraseCore, hs]]
    rfl
  | cons fr rest =>
    rw [show (eraseCore c).stack.head? = some (eraseFrame fr) from by simp [eraseCore, hs]]
    dsimp only
    cases hs2 : c2.stack with
    | nil =>
      have he2 : (eraseCore c2).stack = [] := by simp [eraseCore, hs2]
      rw [he2]
      cases ts2 with
      | none => simp [eraseCore, hs2]
      | some l2 => by_cases hfr : fr.tok < 0 <;> simp [eraseCore, eraseFrame, hs2, hfr]
    | cons top rest2 =>
      have he2 : (eraseCore c2).stack = eraseFrame top :: rest2.map eraseFrame := by
        simp [eraseCore, hs2]
      rw [he2]
      cases ts2 with
      | none => simp [eraseCore, eraseFrame, hs2]
      | some l2 => by_cases hfr : fr.tok < 0 <;> simp [eraseCore, eraseFrame, hs2, hfr]

theorem jstok_end_check_erase (strict : Bool) (c : JCore) (ts : Option (List JTok)) :
    jstok_end_check strict (eraseCore c) none = eraseOut (jstok_end_check strict c ts) := by
  unfold jstok_end_check
  have hl : (eraseCore c).stack.length = c.stack.length := by simp [eraseCore]
  have hrd : (eraseCore c).root_done = c.root_done := rfl
  have hp : (eraseCore c).pos = c.pos := rfl
  have htn : (eraseCore c).toknext = c.toknext := rfl
  rw [hl, hrd, hp, htn]
  by_cases h1 : strict = true ∧ c.stack.length = 0 ∧ c.root_done = false
  · rw [if_pos h1, if_pos h1]
    rfl
  · rw [if_neg h1, if_neg h1]
    by_cases h2 : c.stack.length ≠ 0
    · rw [if_pos h2, if_pos h2]
      rfl
    · rw [if_neg h2, if_neg h2]
      rfl

theorem jstok_string_token_erase (json : List Char) (len : Nat) (maxT : Int) (c : JCore)
    (ts : Option (List JTok)) (hm : (c.toknext : Int) < maxT) :
    jstok_parse_string_token json len maxT (eraseCore c) none =
      match jstok_parse_string_token json len maxT c ts with
      | .err e c' _ => .err e (eraseCore c') none
      | .ok (i, c', _) => .ok (i, eraseCore c', none) := by
  unfold jstok_parse_string_token
  have hp : (eraseCore c).pos = c.pos := rfl
  rw [hp]
  by_cases h1 : len ≤ c.pos ∨ getc json c.pos ≠ '"'
  · rw [if_pos h1, if_pos h1]
  · rw [if_neg h1, if_neg h1]
    cases hscan : jstok_str_scan json (c.pos + 1) (len - (c.pos + 1)) with
    | closedAt q =>
      dsimp only
      rw [show ({ eraseCore c with pos := q } : JCore) = eraseCore { c with pos := q } from rfl]
      rw [jstok_new_token_erase { c with pos := q } ts maxT JType.STRING ((c.pos : Int) + 1)
        (q : Int) hm]
      cases hnt : jstok_new_token { c with pos := q } ts maxT JType.STRING ((c.pos : Int) + 1)
          (q : Int) with
      | error e => rfl
      | ok r =>
        obtain ⟨i, c1, ts1⟩ := r
        rfl
    | badAt j => rfl
    | needMore => rfl

theorem jstok_primitive_token_erase (strict : Bool) (json : List Char) (len : Nat) (maxT : Int)
    (c : JCore) (ts : Option (List JTok)) (hm : (c.toknext : Int) < maxT) :
    jstok_parse_primitive_token strict json len maxT (eraseCore c) none =
      match jstok_parse_primitive_token strict json len maxT c ts with
      | .err e c' _ => .err e (eraseCore c') none
      | .ok (i, c', _) => .ok (i, eraseCore c', none) := by
  unfold jstok_parse_primitive_token
  have hp : (eraseCore c).pos = c.pos := rfl
  rw [hp]
  by_cases h0 : len ≤ c.pos
  · rw [if_pos h0, if_pos h0]
  · rw [if_neg h0, if_neg h0]
    by_cases h1 : getc json c.pos = 't'
    · rw [if_pos h1, if_pos h1]
      rw [show jstok_parse_literal json len (eraseCore c) ("true".toList)
        = jstok_parse_literal json len c ("true".toList) from rfl]
      cases hl : jstok_parse_literal json len c ("true".toList) with
      | error e => rfl
      | ok n =>
        dsimp only
        rw [show ({ eraseCore c with pos := c.pos + n } : JCore)
          = eraseCore { c with pos := c.pos + n } from rfl]
        rw [jstok_new_token_erase { c with pos := c.pos + n } ts maxT JType.PRIMITIVE
          (c.pos : Int) (((c.pos + n : Nat)) : Int) hm]
        cases hnt : jstok_new_token { c with pos := c.pos + n } ts maxT JType.PRIMITIVE
            (c.pos : Int) (((c.pos + n : Nat)) : Int) with
        | error e => rfl
        | ok r =>
          obtain ⟨i, c1, ts1⟩ := r
          rfl
    · rw [if_neg h1, if_neg h1]
      by_cases h2 : getc json c.pos = 'f'
      · rw [if_pos h2, if_pos h2]
        rw [show jstok_parse_literal json len (eraseCore c) ("false".toList)
          = jstok_parse_literal json len c ("false".toList) from rfl]
        cases hl : jstok_parse_literal json len c ("false".toList) with
        | error e => rfl
        | ok n =>
          dsimp only
          rw [show ({ eraseCore c with pos := c.pos + n } : JCore)
            = eraseCore { c with pos := c.pos + n } from rfl]
          rw [jstok_new_token_erase { c with pos := c.pos + n } ts maxT JType.PRIMITIVE
            (c.pos : Int) (((c.pos + n : Nat)) : Int) hm]
          cases hnt : jstok_new_token { c with pos := c.pos + n } ts maxT JType.PRIMITIVE
              (c.pos : Int) (((c.pos + n : Nat)) : Int) with
          | error e => rfl
          | ok r =>
            obtain ⟨i, c1, ts1⟩ := r
            rfl
      · rw [if_neg h2, if_neg h2]
        by_cases h3 : getc json c.pos = 'n'
        · rw [if_pos h3, if_pos h3]
          rw [show jstok_parse_literal json len (eraseCore c) ("null".toList)
            = jstok_parse_literal json len c ("null".toList) from rfl]
          cases hl : jstok_parse_literal json len c ("null".toList) with
          | error e => rfl
          | ok n =>
            dsimp only
            rw [show ({ eraseCore c with pos := c.pos + n } : JCore)
              = eraseCore { c with pos := c.pos + n } from rfl]
            rw [jstok_new_token_erase { c with pos := c.pos + n } ts maxT JType.PRIMITIVE
              (c.pos : Int) (((c.pos + n : Nat)) : Int) hm]
            cases hnt : jstok_new_token { c with pos := c.pos + n } ts maxT JType.PRIMITIVE
                (c.pos : Int) (((c.pos + n : Nat)) : Int) with
            | error e => rfl
            | ok r =>
              obtain ⟨i, c1, ts1⟩ := r
              rfl
        · rw [if_neg h3, if_neg h3]
          cases hn : jstok_parse_number_span strict json len c.pos with
          | error e => rfl
          | ok endp =>
            dsimp only
            rw [show ({ eraseCore c with pos := endp } : JCore)
              = eraseCore { c with pos := endp } from rfl]
            rw [jstok_new_token_erase { c with pos := endp } ts maxT JType.PRIMITIVE
              (c.pos : Int) (endp : Int) hm]
            cases hnt : jstok_new_token { c with pos := endp } ts maxT JType.PRIMITIVE
                (c.pos : Int) (endp : Int) with
            | error e => rfl
            | ok r =>
              obtain ⟨i, c1, ts1⟩ := r
              rfl

theorem jstok_step_value_string_erase (strict : Bool) (json : List Char) (len : Nat)
    (maxT : Int) (c : JCore) (ts : Option (List JTok)) (hm : (c.toknext : Int) < maxT) :
    jstok_step_value_string strict json len maxT (eraseCore c) none =
      eraseStep (jstok_step_value_string strict json len maxT c ts) := by
  unfold jstok_step_value_string
  rw [jstok_accept_value_erase strict c ts]
  cases hav : jstok_accept_value strict c ts with
  | error e => rfl
  | ok p =>
    obtain ⟨c1, ts1⟩ := p
    dsimp only
    obtain ⟨_, hpos1, htok1⟩ := jstok_accept_value_rollback strict c ts c1 ts1 hav
    rw [jstok_string_token_erase json len maxT c1 ts1 (by omega)]
    cases hst : jstok_parse_string_token json len maxT c1 ts1 with
    | err e2 c2 ts2 =>
      dsimp only
      by_cases hc2 : e2.code = JSTOK_ERROR_PART
      · rw [if_pos hc2, if_pos hc2]
        rw [show (eraseCore c).root_done = c.root_done from rfl]
        rw [jstok_rollback_erase c c.root_done c2 ts2]
        rfl
      · rw [if_neg hc2, if_neg hc2]
        rfl
    | ok r =>
      obtain ⟨i, c2, ts2⟩ := r
      rfl

theorem jstok_step_value_prim_erase (strict : Bool) (json : List Char) (len : Nat)
    (maxT : Int) (c : JCore) (ts : Option (List JTok)) (hm : (c.toknext : Int) < maxT) :
    jstok_step_value_prim strict json len maxT (eraseCore c) none =
      eraseStep (jstok_step_value_prim strict json len maxT c ts) := by
  unfold jstok_step_value_prim
  rw [jstok_accept_value_erase strict c ts]
  cases hav : jstok_accept_value strict c ts with
  | error e => rfl
  | ok p =>
    obtain ⟨c1, ts1⟩ := p
    dsimp only
    obtain ⟨_, hpos1, htok1⟩ := jstok_accept_value_rollback strict c ts c1 ts1 hav
    rw [jstok_primitive_token_erase strict json len maxT c1 ts1 (by omega)]
    cases hst : jstok_parse_primitive_token strict json len maxT c1 ts1 with
    | err e2 c2 ts2 =>
      dsimp only
      by_cases hc2 : e2.code = JSTOK_ERROR_PART
      · rw [if_pos hc2, if_pos hc2]
        rw [show (eraseCore c).root_done = c.root_done from rfl]
        rw [jstok_rollback_erase c c.root_done c2 ts2]
        rfl
      · rw [if_neg hc2, if_neg hc2]
        rfl
    | ok r =>
      obtain ⟨i, c2, ts2⟩ := r
      rfl

theorem jstok_step_erase (strict : Bool) (json : List Char) (len : Nat) (maxT : Int)
    (c : JCore) (ts : Option (List JTok)) (hm : (c.toknext : Int) < maxT) :
    jstok_step strict json len maxT (eraseCore c) none =
      eraseStep (jstok_step strict json len maxT c ts) := by
  unfold jstok_step
  rw [show (eraseCore c).pos = c.pos from rfl]
  by_cases h1 : jstok_is_space (getc json c.pos) = true
  · rw [if_pos h1, if_pos h1]
    rfl
  · rw [if_neg h1, if_neg h1]
    by_cases h2 : getc json c.pos = '{'
    · rw [if_pos h2, if_pos h2]
      rw [jstok_start_container_erase strict maxT JType.OBJECT c ts hm]
      cases hsc : jstok_start_container strict maxT JType.OBJECT c ts with
      | err e c' ts' => rfl
      | ok r =>
        obtain ⟨i, c', ts'⟩ := r
        rfl
    · rw [if_neg h2, if_neg h2]
      by_cases h3 : getc json c.pos = '['
      · rw [if_pos h3, if_pos h3]
        rw [jstok_start_container_erase strict maxT JType.ARRAY c ts hm]
        cases hsc : jstok_start_container strict maxT JType.ARRAY c ts with
        | err e c' ts' => rfl
        | ok r =>
          obtain ⟨i, c', ts'⟩ := r
          rfl
      · rw [if_neg h3, if_neg h3]
        by_cases h4 : getc json c.pos = '}'
        · rw [if_pos h4, if_pos h4]
          rw [jstok_end_container_erase JType.OBJECT c ts]
          cases hsc : jstok_end_container JType.OBJECT c ts with
          | err e c' ts' => rfl
          | ok r =>
            obtain ⟨i, c', ts'⟩ := r
            rfl
        · rw [if_neg h4, if_neg h4]
          by_cases h5 : getc json c.pos = ']'
          · rw [if_pos h5, if_pos h5]
            rw [jstok_end_container_erase JType.ARRAY c ts]
            cases hsc : jstok_end_container JType.ARRAY c ts with
            | err e c' ts' => rfl
            | ok r =>
              obtain ⟨i, c', ts'⟩ := r
              rfl
          · rw [if_neg h5, if_neg h5]
            by_cases h6 : getc json c.pos = ':'
            · rw [if_pos h6, if_pos h6]
              cases hs : c.stack with
              | nil =>
                rw [show (eraseCore c).stack = [] from by simp [eraseCore, hs]]
                rfl
              | cons fr rest =>
                rw [show (eraseCore c).stack = eraseFrame fr :: rest.map eraseFrame from by
                  simp [eraseCore, hs]]
                dsimp only
                rw [show (eraseFrame fr).type = fr.type from rfl,
                    show (eraseFrame fr).st = fr.st from rfl]
                by_cases h7 : fr.type = JType.OBJECT ∧ fr.st = JSt.OBJ_COLON
                · rw [if_pos h7, if_pos h7]
                  rfl
                · rw [if_neg h7, if_neg h7]
                  rfl
            · rw [if_neg h6, if_neg h6]
              by_cases h8 : getc json c.pos = ','
              · rw [if_pos h8, if_pos h8]
                cases hs : c.stack with
                | nil =>
                  rw [show (eraseCore c).stack = [] from by simp [eraseCore, hs]]
                  rfl
                | cons fr rest =>
                  rw [show (eraseCore c).stack = eraseFrame fr :: rest.map eraseFrame from by
                    simp [eraseCore, hs]]
                  dsimp only
                  rw [show (eraseFrame fr).type = fr.type from rfl,
                      show (eraseFrame fr).st = fr.st from rfl]
                  by_cases h9 : fr.type = JType.OBJECT
                  · rw [if_pos h9, if_pos h9]
                    by_cases h10 : fr.st = JSt.OBJ_COMMA_OR_END
                    · rw [if_pos h10, if_pos h10]
                      rfl
                    · rw [if_neg h10, if_neg h10]
                      rfl
                  · rw [if_neg h9, if_neg h9]
                    by_cases h11 : fr.st = JSt.ARR_COMMA_OR_END
                    · rw [if_pos h11, if_pos h11]
                      rfl
                    · rw [if_neg h11, if_neg h11]
                      rfl
              · rw [if_neg h8, if_neg h8]
                by_cases h12 : getc json c.pos = '"'
                · rw [if_pos h12, if_pos h12]
                  rw [show (eraseCore c).stack.head? = (c.stack.head?).map eraseFrame from by
                    simp [eraseCore]]
                  cases hhd : c.stack.head? with
                  | none =>
                    dsimp only [Option.map]
                    exact jstok_step_value_string_erase strict json len maxT c ts hm
                  | some fr =>
                    dsimp only [Option.map]
                    rw [show (eraseFrame fr).type = fr.type from rfl,
                        show (eraseFrame fr).st = fr.st from rfl]
                    by_cases h13 : fr.type = JType.OBJECT ∧
                        (fr.st = JSt.OBJ_KEY_OR_END ∨ fr.st = JSt.OBJ_KEY)
                    · rw [if_pos h13, if_pos h13]
                      rw [jstok_string_token_erase json len maxT c ts hm]
                      cases hst : jstok_parse_string_token json len maxT c ts with
                      | err e c' ts' => rfl
                      | ok r =>
                        obtain ⟨i, c1, ts1⟩ := r
                        dsimp only
                        rw [jstok_accept_key_erase c1]
                        cases hak : jstok_accept_key c1 with
                        | error e => rfl
                        | ok c2 => rfl
                    · rw [if_neg h13, if_neg h13]
                      exact jstok_step_value_string_erase strict json len maxT c ts hm
                · rw [if_neg h12, if_neg h12]
                  exact jstok_step_value_prim_erase strict json len maxT c ts hm

/-- Count-only simulation of the main loop: with a token bound at least the
input length, a run with `tokens == NULL` mirrors a token-mode run exactly
(same return, same toknext, same positions), with every frame's token
back-reference erased to -1. -/
theorem jstok_loop_erase (strict : Bool) (json : List Char) (len : Nat) (maxT : Int)
    (hlm : (len : Int) ≤ maxT) :
    ∀ (fuel : Nat) (c : JCore) (ts : Option (List JTok)), c.toknext ≤ c.pos →
      jstok_loop strict json len maxT fuel (eraseCore c) none =
        eraseOut (jstok_loop strict json len maxT fuel c ts) := by
  intro fuel
  induction fuel with
  | zero => intro c ts _; rfl
  | succ fuel ih =>
    intro c ts hinv
    rw [jstok_loop, jstok_loop]
    rw [show (eraseCore c).pos = c.pos from rfl]
    by_cases hp : c.pos < len
    · rw [if_pos hp, if_pos hp]
      rw [jstok_step_erase strict json len maxT c ts (by omega)]
      cases hstep : jstok_step strict json len maxT c ts with
      | fail e c2 ts2 => rfl
      | next c2 ts2 =>
        dsimp only [eraseStep]
        obtain ⟨hlt, htk⟩ := jstok_step_next_incr strict json len maxT c ts c2 ts2 hstep
        exact ih c2 ts2 (by omega)
    · rw [if_neg hp, if_neg hp]
      exact jstok_end_check_erase strict c ts

/-- C3: Count-only equivalence.  With a token bound at least the input length
(a "sufficiently large token array"), jstok_parse in count-only mode
(tokens == NULL) on a freshly initialized parser returns the same value and
the same final toknext as jstok_parse in token mode on a freshly initialized
parser — on success and error paths alike; in particular on every accepted
input the same nonnegative count. -/
theorem c3_count_only_equiv (strict : Bool) (json : List Char) (l : List JTok) (maxT : Int)
    (hm : (json.length : Int) ≤ maxT) :
    (jstok_parse strict (some jstok_init) (some json) (json.length : Int) none maxT).1
      = (jstok_parse strict (some jstok_init) (some json) (json.length : Int) (some l) maxT).1 ∧
    Option.map JParser.toknext
        (jstok_parse strict (some jstok_init) (some json) (json.length : Int) none maxT).2.1
      = Option.map JParser.toknext
        (jstok_parse strict (some jstok_init) (some json) (json.length : Int) (some l) maxT).2.1 := by
  simp only [jstok_parse]
  simp only [if_neg (by omega : ¬ (json.length : Int) < 0)]
  simp only [Int.toNat_natCast]
  have hE := jstok_loop_erase strict json json.length maxT hm (json.length + 1)
    jstok_init.core (some l) (by exact Nat.le_refl 0)
  rw [show eraseCore jstok_init.core = jstok_init.core from rfl] at hE
  rw [hE]
  exact ⟨rfl, rfl⟩

theorem c3_count_only_equiv_witness :
    (("[1,2]".toList.length : Int) ≤ 8) ∧
    ((jstok_parse true (some jstok_init) (some "[1,2]".toList) ("[1,2]".toList.length : Int)
        none 8).1
      = (jstok_parse true (some jstok_init) (some "[1,2]".toList) ("[1,2]".toList.length : Int)
        (some (List.replicate 8 defJTok)) 8).1 ∧
    Option.map JParser.toknext
        (jstok_parse true (some jstok_init) (some "[1,2]".toList) ("[1,2]".toList.length : Int)
          none 8).2.1
      = Option.map JParser.toknext
        (jstok_parse true (some jstok_init) (some "[1,2]".toList) ("[1,2]".toList.length : Int)
          (some (List.replicate 8 defJTok)) 8).2.1) :=
  ⟨by decide, c3_count_only_equiv true ("[1,2]".toList) (List.replicate 8 defJTok) 8 (by decide)⟩
